import Mathlib

/-!
# Verification of `diffimageml.fakeplanting`

A shallow embedding, in Lean 4, of the core of the `diffimageml` fake-supernova
injection/recovery module (`src/diffimageml/fakeplanting.py`), together with
theorems settling the frozen claims about it.

Modeling conventions:

* Python/numpy floating point numbers are modeled as exact rationals (`ℚ`);
  machine integers as `Nat`/`Int` (Python integers are arbitrary precision).
* A FITS header is an ordered association list of string keys and scalar
  values (`HVal`); assignment (`hset`) replaces the value of an existing key
  in place and otherwise appends a new card at the end, which is the
  observable behavior of `astropy.io.fits.Header.__setitem__` for the keys
  used here.
* Fallible Python code (raising `ValueError`, `KeyError`, `IndexError`,
  `ZeroDivisionError`) is embedded with `Except PyErr`.
* External collaborators (astropy WCS sky transforms, the PSF model's
  evaluation function, float-to-string rendering) are abstract function
  parameters of the embedded operations.
-/

/-- Python errors raised by the embedded code paths. -/
inductive PyErr
  | valueError (msg : String)
  | keyError (k : String)
  | indexError
  | zeroDivisionError
deriving DecidableEq

/-! ## Python string / integer helpers -/

/-- The decimal digit characters, as produced by Python `str` on a digit 0-9.
Arguments ≥ 9 all map to `'9'`; the function is only ever applied to digits. -/
def digChar : Nat → Char
  | 0 => '0'
  | 1 => '1'
  | 2 => '2'
  | 3 => '3'
  | 4 => '4'
  | 5 => '5'
  | 6 => '6'
  | 7 => '7'
  | 8 => '8'
  | _ => '9'

/-- Numeric value of a (digit) character, as used by Python `int()`. -/
def dval (c : Char) : Nat := c.toNat - 48

/-- Is `c` an ASCII decimal digit? -/
def isDig (c : Char) : Bool := 48 ≤ c.toNat && c.toNat ≤ 57

/-- Fuel-based decimal rendering of a natural number, most significant digit
first.  With fuel `n + 1` this computes the digits of `n` (Python `str(n)`
for `n > 0`; the top-level wrapper handles `0`). -/
def pyStrAux : Nat → Nat → List Char
  | 0, _ => []
  | fuel + 1, n =>
      if n < 10 then [digChar n]
      else pyStrAux fuel (n / 10) ++ [digChar (n % 10)]

/-- Python `str` on a nonnegative integer: decimal rendering. -/
def pyStr (n : Nat) : String := String.mk (pyStrAux (n + 1) n)

/-- Python `str.zfill(w)`: left-pad with `'0'` to width `w`. -/
def zfill (w : Nat) (s : String) : String :=
  String.mk (List.replicate (w - s.data.length) '0' ++ s.data)

/-- Python slicing `s[a:b]` for `0 ≤ a ≤ b` on a string. -/
def strSlice (s : String) (a b : Nat) : String :=
  String.mk ((s.data.drop a).take (b - a))

/-- Is `p` a (character) prefix of `s`?  Helper for Python's `in` on strings. -/
def chPre : List Char → List Char → Bool
  | [], _ => true
  | _ :: _, [] => false
  | a :: as, b :: bs => a == b && chPre as bs

/-- Does `p` occur as a contiguous substring of `s`? -/
def subAt : List Char → List Char → Bool
  | p, [] => p.isEmpty
  | p, c :: cs => chPre p (c :: cs) || subAt p cs

/-- Python `needle in haystack` on strings (substring test). -/
def pyIn (needle hay : String) : Bool := subAt needle.data hay.data

/-- The accumulator pass of Python `int()` on a digit string. -/
def pyIntChars (cs : List Char) : Nat := cs.foldl (fun a c => a * 10 + dval c) 0

/-- Python `int(s)` on a string, `none` modeling the `ValueError` raised when
`s` is not a plain nonnegative decimal numeral. -/
def pyIntOpt (s : String) : Option Nat :=
  if s.data ≠ [] ∧ s.data.all isDig then some (pyIntChars s.data) else none

/-- Python-style `append`-if-absent deduplication, keeping first occurrences,
as in `if plant_pix not in plant_pixels: plant_pixels.append(plant_pix)`. -/
def pyDedup {α : Type} [DecidableEq α] (l : List α) : List α :=
  l.foldl (fun acc x => if x ∈ acc then acc else acc ++ [x]) []

/-- Python `list.remove(x)`: drop the first occurrence of `x`. -/
def pyRemoveFirst {α : Type} [DecidableEq α] (x : α) : List α → List α
  | [] => []
  | y :: ys => if y = x then ys else y :: pyRemoveFirst x ys

/-- One cursor-based sweep of `for i in tmp: if p(i): tmp.remove(i)` —
CPython's iterator keeps a position index into the mutating list, so removing
the element at the cursor causes the next element to be skipped.  `fuel`
bounds the number of cursor steps (the wrapper supplies `l.length`, which is
an upper bound on the number of steps actually taken). -/
def pyIterRemoveGo {α : Type} [DecidableEq α] (p : α → Bool) :
    Nat → Nat → List α → List α
  | 0, _, l => l
  | fuel + 1, k, l =>
      if h : k < l.length then
        let x := l.get ⟨k, h⟩
        if p x then pyIterRemoveGo p fuel (k + 1) (pyRemoveFirst x l)
        else pyIterRemoveGo p fuel (k + 1) l
      else l

/-- Python `for i in tmp: if p(i): tmp.remove(i)` (mutation during
iteration), starting from cursor 0. -/
def pyIterRemove {α : Type} [DecidableEq α] (p : α → Bool) (l : List α) :
    List α :=
  pyIterRemoveGo p l.length 0 l

/-! ## numpy numeric helpers -/

/-- `numpy.round` on a rational: round half to even. -/
def npRound (q : ℚ) : ℤ :=
  let f : ℤ := ⌊q⌋
  let r : ℚ := q - f
  if r < 1/2 then f
  else if 1/2 < r then f + 1
  else if f % 2 = 0 then f else f + 1

/-- Python `int()` truncation toward zero on a rational. -/
def pyTrunc (q : ℚ) : ℤ := if 0 ≤ q then ⌊q⌋ else ⌈q⌉

/-- `numpy.arange(a, b)` on integers. -/
def intArange (a b : ℤ) : List ℤ := (List.range (b - a).toNat).map (fun k => a + (k : ℤ))

/-- Elementwise scaling of a 2-D array: `epsf * sca`. -/
def scaleMat (sca : ℚ) (m : List (List ℚ)) : List (List ℚ) :=
  m.map (fun row => row.map (fun v => v * sca))

/-- `numpy.sum` of a 2-D array. -/
def matSum (m : List (List ℚ)) : ℚ := (m.map (fun row => row.sum)).sum

/-! ## The FITS header model -/

/-- A FITS header card value: string, numeric, or boolean. -/
inductive HVal
  | str (s : String)
  | num (q : ℚ)
  | bool (b : Bool)
deriving DecidableEq

/-- A FITS header: an ordered association list of cards. -/
abbrev Header : Type := List (String × HVal)

/-- The key list of a header, in card order (`header.keys()`). -/
def hkeys (h : Header) : List String := h.map Prod.fst

/-- Header assignment `hdr[k] = v`: replace the value of an existing card in
place, else append a new card. -/
def hset (h : Header) (k : String) (v : HVal) : Header :=
  if h.any (fun kv => kv.1 = k) then
    h.map (fun kv => if kv.1 = k then (k, v) else kv)
  else h ++ [(k, v)]

/-- Sequential header assignments, first card first. -/
def hsetMany (h : Header) (entries : List (String × HVal)) : Header :=
  entries.foldl (fun hh kv => hset hh kv.1 kv.2) h

/-- Header lookup `hdr[k]`, `none` when the key is absent (`KeyError`). -/
def hget (h : Header) (k : String) : Option HVal :=
  (List.find? (fun kv => kv.1 = k) h).map Prod.snd

/-- Numeric content of a header value.  The code paths we embed only apply
this to cards that were written as numbers; other shapes default to `0`. -/
def hvalNumD : Option HVal → ℚ
  | some (HVal.num q) => q
  | _ => 0

/-- Header lookup raising `KeyError` when absent, extracting a numeric value. -/
def hgetNumE (h : Header) (k : String) : Except PyErr ℚ :=
  match hget h k with
  | none => Except.error (PyErr.keyError k)
  | some v => Except.ok (hvalNumD (some v))

/-! ## Detection-efficiency matcher (`FakePlanter.calculate_detection_efficiency`) -/

/-- The per-pair window test of `calculate_detection_efficiency`:
`pixel[0] > i[0] - search and pixel[0] < i[0] + search and
 pixel[1] > i[1] - search and pixel[1] < i[1] + search`. -/
def boxMatch (search : ℚ) (pixel fake : ℚ × ℚ) : Bool :=
  decide (fake.1 - search < pixel.1) && decide (pixel.1 < fake.1 + search) &&
  decide (fake.2 - search < pixel.2) && decide (pixel.2 < fake.2 + search)

/-- Inner loop of the matcher: scan fake positions from index `k` upward and
return the index of the first one whose window contains `pixel` (the loop
`break`s at the first hit). -/
def firstMatchAux (search : ℚ) (pixel : ℚ × ℚ) :
    Nat → List (ℚ × ℚ) → Option Nat
  | _, [] => none
  | k, f :: fs =>
      if boxMatch search pixel f then some k
      else firstMatchAux search pixel (k + 1) fs

/-- Index of the first fake position credited with detection `pixel`. -/
def firstMatch (search : ℚ) (fakes : List (ℚ × ℚ)) (pixel : ℚ × ℚ) :
    Option Nat :=
  firstMatchAux search pixel 0 fakes

/-- The `truths` list: one `(plant_position, detection_pixel)` entry per
detection that was credited to some fake. -/
def truthsList (search : ℚ) (fakes : List (ℚ × ℚ)) (dets : List (ℚ × ℚ)) :
    List ((ℚ × ℚ) × (ℚ × ℚ)) :=
  dets.filterMap (fun p =>
    (firstMatch search fakes p).map (fun i => (fakes.getD i (0, 0), p)))

/-- The `binary_detection_dict` after the matching loop: keys are the fake
IDs (initialized to 0 in insertion order, duplicates collapsed as in a
Python dict), and the entry for a fake's ID is set to 1 each time a
detection is credited to it. -/
def binDict (search : ℚ) (fakeIds : List String) (fakes : List (ℚ × ℚ))
    (dets : List (ℚ × ℚ)) : List (String × Nat) :=
  dets.foldl
    (fun d p =>
      match firstMatch search fakes p with
      | some i => d.map (fun kv => if kv.1 = fakeIds.getD i "" then (kv.1, 1) else kv)
      | none => d)
    ((pyDedup fakeIds).map (fun k => (k, 0)))

/-- `binary_detection`: the dict read back in `fake_plant_ids` order. -/
def binaryDetection (search : ℚ) (fakeIds : List String)
    (fakes : List (ℚ × ℚ)) (dets : List (ℚ × ℚ)) : List Nat :=
  fakeIds.map (fun fid =>
    (((binDict search fakeIds fakes dets).find? (fun kv => kv.1 = fid)).map Prod.snd).getD 0)

/-- A row of the detection table: `(fakeID, pixX, pixY, detected)`. -/
abbrev DetRow : Type := String × ℚ × ℚ × Nat

/-- The detection table `Table([ids, x, y, binary_detection])`. -/
def detectionTable (search : ℚ) (fakeIds : List String)
    (fakes : List (ℚ × ℚ)) (dets : List (ℚ × ℚ)) : List DetRow :=
  (fakeIds.zip (fakes.zip (binaryDetection search fakeIds fakes dets))).map
    (fun r => (r.1, r.2.1.1, r.2.1.2, r.2.2))

/-- Core of `calculate_detection_efficiency`, after the source catalog has
been reduced to centroid pixels and the fake IDs/locations are in hand:
build `truths`, deduplicate the credited plant positions, and divide by the
number of fakes (raising `ZeroDivisionError` when there are none). -/
def calcDetEffCore (search : ℚ) (fakeIds : List String)
    (fakes : List (ℚ × ℚ)) (dets : List (ℚ × ℚ)) :
    Except PyErr (ℚ × List DetRow) :=
  let truths := truthsList search fakes dets
  let plantPixels := pyDedup (truths.map Prod.fst)
  if fakes.length = 0 then Except.error PyErr.zeroDivisionError
  else
    Except.ok ((plantPixels.length : ℚ) / (fakes.length : ℚ),
      detectionTable search fakeIds fakes dets)

/-- `FakePlanter.get_fake_locations`: collect every header key containing
both `"FK"` and `"X"`, read the x values, slice out the 3-character fake ID,
and read the matching `FK<id>Y` values (a missing `Y` key is a `KeyError`). -/
def getFakeLocations (h : Header) :
    Except PyErr (List String × List (ℚ × ℚ)) :=
  let xkeys := (hkeys h).filter (fun k => pyIn "FK" k && pyIn "X" k)
  let xs := xkeys.map (fun k => hvalNumD (hget h k))
  let ids := xkeys.map (fun k => strSlice k 2 5)
  match ids.mapM (fun fid => hgetNumE h ("FK" ++ fid ++ "Y")) with
  | Except.error e => Except.error e
  | Except.ok ys => Except.ok (ids, xs.zip ys)

/-- `FakePlanter.set_fake_detection_header`: write each table row's
detected flag under `FK<id>DET`. -/
def setFakeDetectionHeader (h : Header) (table : List DetRow) : Header :=
  table.foldl (fun hh row => hset hh ("FK" ++ row.1 ++ "DET") (HVal.num row.2.2.2)) h

/-- `calculate_detection_efficiency` on the default path: fake IDs and
locations are read back from the image header, the efficiency and detection
table computed, and the detected flags written back into the header. -/
def calcDetEffFromHeader (search : ℚ) (h : Header) (dets : List (ℚ × ℚ)) :
    Except PyErr (ℚ × List DetRow × Header) :=
  match getFakeLocations h with
  | Except.error e => Except.error e
  | Except.ok (ids, fakes) =>
      match calcDetEffCore search ids fakes dets with
      | Except.error e => Except.error e
      | Except.ok (eff, table) =>
          Except.ok (eff, table, setFakeDetectionHeader h table)

/-- The indices of the distinct fakes credited with at least one detection
(first occurrences kept, mirroring the dedup in the source). -/
def distinctMatchedFakes (search : ℚ) (fakes : List (ℚ × ℚ))
    (dets : List (ℚ × ℚ)) : List Nat :=
  pyDedup (dets.filterMap (firstMatch search fakes))

/-! ## FK header keys -/

/-- The 3-digit zero-padded fake index, `str(n).zfill(3)`. -/
def fkCode (n : Nat) : String := zfill 3 (pyStr n)

/-- A fake provenance header key, `'FK{}X'.format(idx)` and friends. -/
def fkKey (n : Nat) (sfx : String) : String := "FK" ++ fkCode n ++ sfx

/-- The provenance suffixes written by `plant_fakes` (in write order). -/
def plantSuffixes : List String := ["X", "Y", "RA", "DEC", "SCA", "F", "MOD"]

/-- The provenance suffixes written by `add_psf` (in write order); note the
absence of `SCA`. -/
def addPsfSuffixes : List String := ["X", "Y", "RA", "DEC", "F", "MOD"]

/-- All FK-group suffixes used anywhere in the module (including the
detected flag `DET`). -/
def allSuffixes : List String := ["X", "Y", "RA", "DEC", "SCA", "F", "MOD", "DET"]

/-! ## Images and the fake injector -/

/-- The pixel payload of an HDU: its numpy dimensionality together with its
contents as a 2-D grid of rationals.  Every embedded code path either
rejects non-2-D data up front (`add_psf`) or presupposes 2-D data
(`plant_fakes`), so only the 2-D contents are carried. -/
structure ImgData where
  ndim : Nat
  pix : List (List ℚ)
deriving DecidableEq

/-- A FITS HDU: pixel data plus header. -/
structure Hdu where
  data : ImgData
  header : Header
deriving DecidableEq

/-- A row of an `add_psf` position/flux table (columns `x_fit`, `y_fit`,
`flux_fit`). -/
structure PFRow where
  x : ℚ
  y : ℚ
  flux : ℚ
deriving DecidableEq

/-- The `posflux` argument of `add_psf`: either an astropy `Table` (whose
column-name list is checked) or a raw `(x, y, flux)` triple of arrays. -/
inductive PosFluxInput
  | table (colnames : List String) (rows : List PFRow)
  | raw (xs ys fs : List ℚ)

/-- The state of a `FitsImage` object, restricted to the attributes the
injector reads or writes: the science HDU, the `plants` attribute and the
`has_fakes` flag. -/
structure FitsImageState where
  sci : Hdu
  plants : Option (Hdu × List PFRow)
  has_fakes : Bool

/-- The state of a `FakePlanter` object, restricted to the attributes
`plant_fakes` reads or writes. -/
structure FakePlanterState where
  diffim : FitsImageState
  has_fakes : Bool

/-- Column validation / array conversion of the `posflux` argument of
`add_psf` (the `hasattr(posflux, 'colnames')` branch): a table missing one
of the required columns raises `ValueError`; a raw array is packed into a
table with those columns. -/
def checkPosflux : PosFluxInput → Except PyErr (List PFRow)
  | PosFluxInput.table colnames rows =>
      if "x_fit" ∉ colnames then
        Except.error (PyErr.valueError "Input table does not have x_fit")
      else if "y_fit" ∉ colnames then
        Except.error (PyErr.valueError "Input table does not have y_fit")
      else if "flux_fit" ∉ colnames then
        Except.error (PyErr.valueError "Input table does not have flux_fit")
      else Except.ok rows
  | PosFluxInput.raw xs ys fs =>
      Except.ok ((xs.zip (ys.zip fs)).map (fun r => ⟨r.1, r.2.1, r.2.2⟩))

/-- Map over a 2-D grid with the row and column index of each cell. -/
def mapIdxRow (f : Nat → ℚ → ℚ) : Nat → List ℚ → List ℚ
  | _, [] => []
  | c, v :: vs => f c v :: mapIdxRow f (c + 1) vs

/-- Map over a 2-D grid with the row and column index of each cell. -/
def mapIdxMat (f : Nat → Nat → ℚ → ℚ) : Nat → List (List ℚ) → List (List ℚ)
  | _, [] => []
  | r, row :: rows => mapIdxRow (fun c v => f r c v) 0 row :: mapIdxMat f (r + 1) rows

/-- `addeddata += psf(*indices[::-1])`: evaluate the positioned PSF model on
the full coordinate grid (x = column index, y = row index) and add it into
the image. -/
def densAdd (psfv : ℚ → ℚ → ℚ) (im : List (List ℚ)) : List (List ℚ) :=
  mapIdxMat (fun r c v => v + psfv (c : ℚ) (r : ℚ)) 0 im

/-- The six header cards `add_psf` writes for fake number `n` (write
order `X, Y, RA, DEC, F, MOD`; no `SCA` card).  `sky` abstracts
`wcsutils.pixel_to_skycoord` composed with the `str(...hms)` / `str(...dms)`
renderings. -/
def addPsfGroup (sky : ℚ → ℚ → String × String) (n : Nat) (row : PFRow) :
    List (String × HVal) :=
  [(fkKey n "X", HVal.num row.x),
   (fkKey n "Y", HVal.num row.y),
   (fkKey n "RA", HVal.str (sky row.x row.y).1),
   (fkKey n "DEC", HVal.str (sky row.x row.y).2),
   (fkKey n "F", HVal.num row.flux),
   (fkKey n "MOD", HVal.str "NA")]

/-- The `subshape is None` loop of `add_psf`: for each table row, position
the PSF model at the row's position/flux, write the provenance cards, and
add the evaluated model into the running image.  Returns the final header,
the accumulated `addeddata`, and the PSF model's final flux parameter (the
last row's `flux_fit`, used for the `F_epsf` card). -/
def addPsfLoop (psfEval : ℚ → ℚ → ℚ → ℚ → ℚ → ℚ) (sky : ℚ → ℚ → String × String) :
    Nat → List PFRow → Header → List (List ℚ) → ℚ → Header × List (List ℚ) × ℚ
  | _, [], h, im, fluxCur => (h, im, fluxCur)
  | n, row :: rest, h, im, _ =>
      let h' := hsetMany h (addPsfGroup sky n row)
      addPsfLoop psfEval sky (n + 1) rest h'
        (densAdd (psfEval row.x row.y row.flux) im) row.flux

/-- `FitsImage.add_psf` (with `subshape=None`, the default).  The original
`self.sci` HDU is copied up front; all pixel and header writes go to the
copy.  On an exception (`KeyError` for a missing `RADESYS` card,
`ValueError` for non-2-D data or a table missing a required column) the
`FitsImage` state is returned unchanged.  On success the state records the
planted HDU in `plants` and sets `has_fakes`, and the modified copy is
returned.  `psfEval x0 y0 flux x y` abstracts evaluating the (external)
`Fittable2DModel` positioned at `(x0, y0)` with amplitude `flux` on grid
point `(x, y)`; `fstr` abstracts Python float-to-string rendering;
`psfFlux0` is the flux parameter the PSF model starts with. -/
def addPsf (psfEval : ℚ → ℚ → ℚ → ℚ → ℚ → ℚ) (sky : ℚ → ℚ → String × String)
    (fstr : ℚ → String) (psfFlux0 : ℚ) (img : FitsImageState)
    (posflux : PosFluxInput) : FitsImageState × Except PyErr Hdu :=
  let cphdu := img.sci
  match hget cphdu.header "RADESYS" with
  | none => (img, Except.error (PyErr.keyError "RADESYS"))
  | some _ =>
      if cphdu.data.ndim ≠ 2 then
        (img, Except.error (PyErr.valueError
          (pyStr cphdu.data.ndim ++
            "-d array not supported. Only 2-d arrays can be passed to subtract_psf.")))
      else
        match checkPosflux posflux with
        | Except.error e => (img, Except.error e)
        | Except.ok rows =>
            let res := addPsfLoop psfEval sky 0 rows cphdu.header cphdu.data.pix psfFlux0
            let h1 := hset res.1 "fakeSN" (HVal.bool true)
            let h2 := hset h1 "N_fake" (HVal.str (pyStr rows.length))
            let h3 := hset h2 "F_epsf" (HVal.str (fstr res.2.2))
            let cphdu2 : Hdu := { data := { ndim := cphdu.data.ndim, pix := res.2.1 },
                                  header := h3 }
            ({ img with plants := some (cphdu2, rows), has_fakes := true },
             Except.ok cphdu2)

/-- numpy fancy-index normalization: wrap a negative index, raise
`IndexError` out of `[-n, n)`. -/
def pyIdx (n : Nat) (i : ℤ) : Except PyErr Nat :=
  if i < -(n : ℤ) ∨ (n : ℤ) ≤ i then Except.error PyErr.indexError
  else if i < 0 then Except.ok (i + n).toNat
  else Except.ok i.toNat

/-- Add `v` into list entry `i` (in-bounds callers only). -/
def addAtRow : List ℚ → Nat → ℚ → List ℚ
  | [], _, _ => []
  | x :: xs, 0, v => (x + v) :: xs
  | x :: xs, i + 1, v => x :: addAtRow xs i v

/-- Add `v` into grid cell `(r, c)`. -/
def addAtMat : List (List ℚ) → Nat → Nat → ℚ → List (List ℚ)
  | [], _, _, _ => []
  | row :: rows, 0, c, v => addAtRow row c v :: rows
  | row :: rows, r + 1, c, v => row :: addAtMat rows r c v

/-- Add one stamp row `vals` of the scaled PSF into image row `ri` at the
column indices `cols` (numpy fancy indexing semantics per cell). -/
def stampRow (im : List (List ℚ)) (ri : ℤ) (cols : List ℤ) (vals : List ℚ) :
    Except PyErr (List (List ℚ)) :=
  match cols, vals with
  | [], _ => Except.ok im
  | _, [] => Except.ok im
  | c :: cs, v :: vs =>
      match pyIdx im.length ri, pyIdx ((im.headD []).length) c with
      | Except.error e, _ => Except.error e
      | _, Except.error e => Except.error e
      | Except.ok r', Except.ok c' => stampRow (addAtMat im r' c' v) ri cs vs

/-- Add the whole stamp `epsfn` into the image at row indices `rows` and
column indices `cols` (`cpim[rows[:, None], cols] += epsfn`). -/
def stampAll (im : List (List ℚ)) (rows cols : List ℤ)
    (epsfn : List (List ℚ)) : Except PyErr (List (List ℚ)) :=
  match rows, epsfn with
  | [], _ => Except.ok im
  | _, [] => Except.ok im
  | r :: rs, vals :: valss =>
      match stampRow im r cols vals with
      | Except.error e => Except.error e
      | Except.ok im' => stampAll im' rs cols valss

/-- The pixel-stamping step of `plant_fakes` for one location: compute the
row/column index windows from the PSF shape (`numpy.round` half-to-even,
`int` truncation, `arange`, then `[:nrows]` / `[:ncols]` slicing) and add
the scaled PSF `epsfn` into the image copy.  A window that does not cover
the full PSF shape is a numpy broadcast `ValueError`; an index outside the
image is an `IndexError`. -/
def plantStamp (im : List (List ℚ)) (epsfn : List (List ℚ)) (x y : ℚ) :
    Except PyErr (List (List ℚ)) :=
  let row := y
  let col := x
  let nrows := epsfn.length
  let ncols := (epsfn.headD []).length
  let r0 : ℤ := npRound (row - (nrows : ℚ) / 2)
  let rEnd : ℤ := npRound (row + (nrows : ℚ) / 2) + 2
  let c0 : ℤ := npRound (col - (ncols : ℚ) / 2)
  let cEnd : ℤ := npRound (col + (ncols : ℚ) / 2) + 2
  let rows := (intArange r0 rEnd).take nrows
  let cols := (intArange c0 cEnd).take ncols
  if rows.length ≠ nrows ∨ cols.length ≠ ncols then
    Except.error (PyErr.valueError "operands could not be broadcast together")
  else stampAll im rows cols epsfn

/-- The scale factor used for fake number `n`: `SCA[n]` when a nonempty
`SCA` list was supplied (`if SCA:` — `None` and `[]` are both falsy),
else `1`. -/
def scaSel (SCA : Option (List ℚ)) (n : Nat) : ℚ :=
  match SCA with
  | some (s :: ss) => (s :: ss).getD n 0
  | _ => 1

/-- The seven header cards `plant_fakes` writes for fake number `n` (write
order `X, Y, RA, DEC, SCA, F, MOD`). -/
def plantGroup (sky : ℚ → ℚ → String × String) (epsf : List (List ℚ))
    (n : Nat) (x y sca : ℚ) : List (String × HVal) :=
  [(fkKey n "X", HVal.num x),
   (fkKey n "Y", HVal.num y),
   (fkKey n "RA", HVal.str (sky x y).1),
   (fkKey n "DEC", HVal.str (sky x y).2),
   (fkKey n "SCA", HVal.num sca),
   (fkKey n "F", HVal.num (matSum (scaleMat sca epsf))),
   (fkKey n "MOD", HVal.str "NA")]

/-- The location loop of `plant_fakes`: for each pixel location, write the
position cards, resolve the scale factor (`SCA[n]` raises `IndexError`
past the end of a supplied nonempty list), write the scale/flux/model
cards, and stamp the scaled PSF into the image copy. -/
def plantFakesLoop (sky : ℚ → ℚ → String × String) (epsf : List (List ℚ))
    (SCA : Option (List ℚ)) :
    Nat → List (ℚ × ℚ) → Header → List (List ℚ) →
    Except PyErr (Header × List (List ℚ))
  | _, [], h, im => Except.ok (h, im)
  | n, (xp, yp) :: rest, h, im =>
      let h1 := hsetMany h
        [(fkKey n "X", HVal.num xp),
         (fkKey n "Y", HVal.num yp),
         (fkKey n "RA", HVal.str (sky xp yp).1),
         (fkKey n "DEC", HVal.str (sky xp yp).2)]
      let scaE : Except PyErr ℚ :=
        match SCA with
        | some (s :: ss) =>
            match (s :: ss).get? n with
            | some sv => Except.ok sv
            | none => Except.error PyErr.indexError
        | _ => Except.ok 1
      match scaE with
      | Except.error e => Except.error e
      | Except.ok sca =>
          let epsfn := scaleMat sca epsf
          let h2 := hsetMany h1
            [(fkKey n "SCA", HVal.num sca),
             (fkKey n "F", HVal.num (matSum epsfn)),
             (fkKey n "MOD", HVal.str "NA")]
          match plantStamp im epsfn xp yp with
          | Except.error e => Except.error e
          | Except.ok im' => plantFakesLoop sky epsf SCA (n + 1) rest h2 im'

/-- `FakePlanter.plant_fakes`: copy the difference image's science HDU,
plant the fakes into the copy (locations are `(x, y)` pixel pairs), write
the summary cards, and return the planted copy.  The `FakePlanter` state is
unchanged except for the `has_fakes` flag, which is only set when the whole
loop succeeds; an exception leaves the state untouched.  A missing
`RADESYS` card is a `KeyError` (read when building the WCS frame pair). -/
def plantFakes (sky : ℚ → ℚ → String × String) (fstr : ℚ → String)
    (planter : FakePlanterState) (epsf : List (List ℚ))
    (locations : List (ℚ × ℚ)) (SCA : Option (List ℚ)) :
    FakePlanterState × Except PyErr Hdu :=
  let cphdu := planter.diffim.sci
  match hget cphdu.header "RADESYS" with
  | none => (planter, Except.error (PyErr.keyError "RADESYS"))
  | some _ =>
      match plantFakesLoop sky epsf SCA 0 locations cphdu.header cphdu.data.pix with
      | Except.error e => (planter, Except.error e)
      | Except.ok (h, im) =>
          let h1 := hset h "fakeSN" (HVal.bool true)
          let h2 := hset h1 "N_fake" (HVal.str (pyStr locations.length))
          let h3 := hset h2 "F_epsf" (HVal.str (fstr (matSum epsf)))
          ({ planter with has_fakes := true },
           Except.ok { data := { ndim := cphdu.data.ndim, pix := im },
                       header := h3 })

/-! ## PSF star extraction (`FitsImage.extract_psf_stars`) -/

/-- A photutils `BoundingBox` (integer pixel bounds). -/
structure Box where
  ixmin : ℤ
  ixmax : ℤ
  iymin : ℤ
  iymax : ℤ
deriving DecidableEq

/-- The geometric box-overlap test (`BoundingBox.intersection` truthiness):
nonempty intersection of the two half-open index ranges on both axes. -/
def boxOverlap (a b : Box) : Bool :=
  decide (max a.ixmin b.ixmin < min a.ixmax b.ixmax) &&
  decide (max a.iymin b.iymin < min a.iymax b.iymax)

/-- The fixed-size extraction bounding box of a candidate star at pixel
position `(x, y)`:
`ixmin, ixmax = int(x - size/2), int(x + size/2)` with `size = 25`. -/
def mkBbox (x y : ℚ) : Box :=
  { ixmin := pyTrunc (x - 25 / 2), ixmax := pyTrunc (x + 25 / 2),
    iymin := pyTrunc (y - 25 / 2), iymax := pyTrunc (y + 25 / 2) }

/-- A row of the Gaia candidate-star catalog, restricted to the fields the
extraction passes read. -/
structure CatRow where
  x : ℚ
  y : ℚ
  sn : ℚ
deriving DecidableEq

/-- An extracted `EPSFStar`, restricted to the fields the post-extraction
passes read: its bounding box and its peak pixel value (`np.max(i.data)`).
`sid` tags the star's object identity (Python removes list elements by
equality, which for `EPSFStar` objects is identity). -/
structure EStar where
  sid : Nat
  bbox : Box
  peak : ℚ
deriving DecidableEq

/-- The all-pairs sweep collecting both members of every intersecting pair:
`for i, obj1: for j in range(i+1, len): if obj1.intersection(obj2):
intersections.append(obj1); intersections.append(obj2)`.  The intersection
test is a parameter (it is delegated to photutils `BoundingBox`). -/
def intersectionsList (inter : Box → Box → Bool) : List Box → List Box
  | [] => []
  | b :: rest =>
      rest.foldl (fun acc b2 => if inter b b2 then acc ++ [b, b2] else acc) []
        ++ intersectionsList inter rest

/-- The pre-extraction overlap pass of `extract_psf_stars`: build each
candidate's bounding box, collect the intersecting pairs, then remove every
row whose box is in the collected list (row indices are collected first and
removed together with `Table.remove_rows`, so this pass removes every
marked row). -/
def preExtractionPass (inter : Box → Box → Bool) (cat : List CatRow) :
    List CatRow :=
  let bboxes := cat.map (fun r => mkBbox r.x r.y)
  let inters := intersectionsList inter bboxes
  cat.filter (fun r => !(mkBbox r.x r.y ∈ inters))

/-- The signal-to-noise cut: `gaiacat[gaiacat['signal_to_noise'] > SNthresh]`. -/
def snCut (SNthresh : ℚ) (cat : List CatRow) : List CatRow :=
  cat.filter (fun r => decide (SNthresh < r.sn))

/-- The post-extraction overlap pass of `extract_psf_stars`: collect the
intersecting pairs of the extracted stars' boxes, then remove marked stars
with `for i in tmp: if i.bbox in intersections: tmp.remove(i)` — a removal
during iteration, embedded with the cursor semantics of `pyIterRemove`. -/
def postExtractionPass (inter : Box → Box → Bool) (stars : List EStar) :
    List EStar :=
  let inters := intersectionsList inter (stars.map EStar.bbox)
  pyIterRemove (fun s => s.bbox ∈ inters) stars

/-- The saturation/non-linearity pass: remove (again during iteration) every
star whose peak pixel exceeds the saturation or max-linearity level. -/
def saturationPass (saturate maxlin : ℚ) (stars : List EStar) : List EStar :=
  pyIterRemove (fun s => decide (saturate < s.peak) || decide (maxlin < s.peak)) stars

/-! ## Fake-source catalog (`FitsImage.write_to_catalog`) -/

/-- The accumulated column lists of the fake-source catalog, plus the list
of already-seen fake indices (`fakes`). -/
structure CatAcc where
  fakes : List Nat
  ra : List HVal
  dec : List HVal
  sca : List HVal
  F : List HVal
  mods : List HVal
  xs : List HVal
  ys : List HVal
deriving DecidableEq

/-- The empty catalog accumulator. -/
def catAccInit : CatAcc := ⟨[], [], [], [], [], [], [], []⟩

/-- One step of the `write_to_catalog` header scan: a key starting with
`"FK"` whose 3-character index slice is new contributes one catalog row,
read back from the header (note: the `F` column is filled from the
`FK<idx>MOD` card, not from `FK<idx>F`).  A non-numeric index slice is the
`ValueError` of `int(...)`; a missing card is a `KeyError`. -/
def catStep (h : Header) (acc : CatAcc) (k : String) : Except PyErr CatAcc :=
  if strSlice k 0 2 = "FK" then
    match pyIntOpt (strSlice k 2 5) with
    | none => Except.error (PyErr.valueError "invalid literal for int with base 10")
    | some idx =>
        if idx ∈ acc.fakes then Except.ok acc
        else
          match hget h ("FK" ++ strSlice k 2 5 ++ "RA") with
          | none => Except.error (PyErr.keyError ("FK" ++ strSlice k 2 5 ++ "RA"))
          | some vra =>
          match hget h ("FK" ++ strSlice k 2 5 ++ "DEC") with
          | none => Except.error (PyErr.keyError ("FK" ++ strSlice k 2 5 ++ "DEC"))
          | some vdec =>
          match hget h ("FK" ++ strSlice k 2 5 ++ "SCA") with
          | none => Except.error (PyErr.keyError ("FK" ++ strSlice k 2 5 ++ "SCA"))
          | some vsca =>
          match hget h ("FK" ++ strSlice k 2 5 ++ "MOD") with
          | none => Except.error (PyErr.keyError ("FK" ++ strSlice k 2 5 ++ "MOD"))
          | some vf =>
          match hget h ("FK" ++ strSlice k 2 5 ++ "MOD") with
          | none => Except.error (PyErr.keyError ("FK" ++ strSlice k 2 5 ++ "MOD"))
          | some vmod =>
          match hget h ("FK" ++ strSlice k 2 5 ++ "X") with
          | none => Except.error (PyErr.keyError ("FK" ++ strSlice k 2 5 ++ "X"))
          | some vx =>
          match hget h ("FK" ++ strSlice k 2 5 ++ "Y") with
          | none => Except.error (PyErr.keyError ("FK" ++ strSlice k 2 5 ++ "Y"))
          | some vy =>
            Except.ok { fakes := acc.fakes ++ [idx],
                        ra := acc.ra ++ [vra], dec := acc.dec ++ [vdec],
                        sca := acc.sca ++ [vsca], F := acc.F ++ [vf],
                        mods := acc.mods ++ [vmod],
                        xs := acc.xs ++ [vx], ys := acc.ys ++ [vy] }
  else Except.ok acc

/-- The catalog-building scan of `write_to_catalog`: iterate the header's
keys in order, collecting one row per distinct fake index. -/
def buildFakeCatalog (h : Header) : Except PyErr CatAcc :=
  (hkeys h).foldlM (catStep h) catAccInit

/-! ## Specification-side helper definitions -/

/-- A usable FK-key suffix: nonempty, and its first character is not a
decimal digit (all suffixes actually used satisfy this; it is what makes
`FK<code><suffix>` parse unambiguously). -/
def goodSuffix (s : String) : Bool :=
  match s.data with
  | [] => false
  | c :: _ => !(isDig c)

/-- The header cards appended by the `plant_fakes` loop for the locations
`locs`, starting at fake index `n₀`. -/
def plantGroupsFrom (sky : ℚ → ℚ → String × String) (epsf : List (List ℚ))
    (SCA : Option (List ℚ)) : Nat → List (ℚ × ℚ) → List (String × HVal)
  | _, [] => []
  | n, (x, y) :: rest =>
      plantGroup sky epsf n x y (scaSel SCA n) ++
        plantGroupsFrom sky epsf SCA (n + 1) rest

/-- The header cards appended by the `add_psf` loop for the rows `rows`,
starting at fake index `n₀`. -/
def addPsfGroupsFrom (sky : ℚ → ℚ → String × String) :
    Nat → List PFRow → List (String × HVal)
  | _, [] => []
  | n, row :: rest => addPsfGroup sky n row ++ addPsfGroupsFrom sky (n + 1) rest

/-- The efficiency value `calculate_detection_efficiency` produces, written
as the claim states it: the number of distinct fakes credited with a
detection, divided by the total number of fakes. -/
def effValue (search : ℚ) (fakes : List (ℚ × ℚ)) (dets : List (ℚ × ℚ)) : ℚ :=
  ((distinctMatchedFakes search fakes dets).length : ℚ) / (fakes.length : ℚ)

/-! ## Concrete inputs used by witnesses and counterexamples -/

/-- A concrete stand-in for the external pixel-to-sky transform. -/
def cSky : ℚ → ℚ → String × String := fun _ _ => ("hms0", "dms0")

/-- A concrete stand-in for Python float-to-string rendering. -/
def cFstr : ℚ → String := fun _ => "flux"

/-- A concrete stand-in for the external PSF model evaluation. -/
def cPsfEval : ℚ → ℚ → ℚ → ℚ → ℚ → ℚ := fun _ _ _ _ _ => 0

/-- A concrete 5×5 science HDU with a clean header. -/
def cHdu0 : Hdu :=
  { data := { ndim := 2,
              pix := [[0, 0, 0, 0, 0], [0, 0, 0, 0, 0], [0, 0, 0, 0, 0],
                      [0, 0, 0, 0, 0], [0, 0, 0, 0, 0]] },
    header := [("RADESYS", HVal.str "ICRS")] }

/-- A concrete `FitsImage` state. -/
def cImg0 : FitsImageState := { sci := cHdu0, plants := none, has_fakes := false }

/-- A concrete `FakePlanter` state. -/
def cPlanter0 : FakePlanterState := { diffim := cImg0, has_fakes := false }

/-- A concrete 1×1 PSF array. -/
def cEpsf0 : List (List ℚ) := [[2]]

/-- A concrete single planting location. -/
def cLocs0 : List (ℚ × ℚ) := [(2, 2)]

/-- A concrete scale-factor list. -/
def cSCA0 : Option (List ℚ) := some [3]

/-- A concrete `add_psf` position/flux table row. -/
def cRows0 : List PFRow := [⟨1, 1, 4⟩]

/-- The column names of a well-formed position/flux table. -/
def cCols0 : List String := ["x_fit", "y_fit", "flux_fit"]

/-- The result of a concrete successful `add_psf` call. -/
def cAddRes : FitsImageState × Except PyErr Hdu :=
  addPsf cPsfEval cSky cFstr 1 cImg0 (PosFluxInput.table cCols0 cRows0)

/-- The HDU returned by the concrete `add_psf` call. -/
def cAddHdu : Hdu := cAddRes.2.toOption.getD cHdu0

/-- The result of a concrete successful `plant_fakes` call. -/
def cPlantRes : FakePlanterState × Except PyErr Hdu :=
  plantFakes cSky cFstr cPlanter0 cEpsf0 cLocs0 cSCA0

/-- The HDU returned by the concrete `plant_fakes` call. -/
def cPlantHdu : Hdu := cPlantRes.2.toOption.getD cHdu0

/-- A position/flux table missing the `x_fit` column. -/
def cBadPF : PosFluxInput := PosFluxInput.table ["y_fit", "flux_fit"] []

/-- Two extracted stars whose bounding boxes intersect. -/
def c3starA : EStar := ⟨0, ⟨0, 10, 0, 10⟩, 0⟩

/-- Two extracted stars whose bounding boxes intersect. -/
def c3starB : EStar := ⟨1, ⟨5, 15, 5, 15⟩, 0⟩

/-- A concrete header holding one complete fake provenance group. -/
def c10h : Header :=
  [("FK000X", HVal.num 1), ("FK000Y", HVal.num 2),
   ("FK000RA", HVal.str "r"), ("FK000DEC", HVal.str "d"),
   ("FK000SCA", HVal.num 3), ("FK000F", HVal.num 9),
   ("FK000MOD", HVal.str "NA")]

/-- The catalog accumulator produced from `c10h`. -/
def c10acc : CatAcc :=
  { fakes := [0], ra := [HVal.str "r"], dec := [HVal.str "d"],
    sca := [HVal.num 3], F := [HVal.str "NA"], mods := [HVal.str "NA"],
    xs := [HVal.num 1], ys := [HVal.num 2] }

/-! # Theorems

First the supporting lemmas about the embedded operations, then one theorem
(plus witness / counterexample where applicable) per claim. -/

/-! ## Matcher lemmas -/

theorem firstMatchAux_some (search : ℚ) (pixel : ℚ × ℚ) :
    ∀ (fs : List (ℚ × ℚ)) (k i : Nat),
      firstMatchAux search pixel k fs = some i →
      k ≤ i ∧ i - k < fs.length ∧
      boxMatch search pixel (fs.getD (i - k) (0, 0)) = true ∧
      ∀ j, k ≤ j → j < i → boxMatch search pixel (fs.getD (j - k) (0, 0)) = false := by
  intro fs
  induction fs with
  | nil => intro k i h; simp [firstMatchAux] at h
  | cons f fs ih =>
      intro k i h
      unfold firstMatchAux at h
      by_cases hb : boxMatch search pixel f = true
      · rw [if_pos hb] at h
        have hki : k = i := by simpa using h
        subst hki
        refine ⟨le_refl _, by simp, by simpa using hb, ?_⟩
        intro j hj hj2; omega
      · rw [if_neg hb] at h
        obtain ⟨hk, hlen, hbox, hmin⟩ := ih (k + 1) i h
        refine ⟨by omega, by simp only [List.length_cons]; omega, ?_, ?_⟩
        · have hik : i - k = (i - (k + 1)) + 1 := by omega
          rw [hik]; simpa using hbox
        · intro j hj hj2
          rcases Nat.eq_or_lt_of_le hj with hjk | hlt
          · rw [← hjk]; simpa using hb
          · have hjk : j - k = (j - (k + 1)) + 1 := by omega
            rw [hjk]
            simpa using hmin j (by omega) hj2

theorem firstMatch_some (search : ℚ) (fakes : List (ℚ × ℚ)) (pixel : ℚ × ℚ)
    (i : Nat) (h : firstMatch search fakes pixel = some i) :
    i < fakes.length ∧ boxMatch search pixel (fakes.getD i (0, 0)) = true ∧
      ∀ j, j < i → boxMatch search pixel (fakes.getD j (0, 0)) = false := by
  obtain ⟨_, hlen, hbox, hmin⟩ := firstMatchAux_some search pixel fakes 0 i h
  exact ⟨by simpa using hlen, by simpa using hbox,
    fun j hj => by simpa using hmin j (Nat.zero_le _) hj⟩

theorem dedup_foldl_mem {α : Type} [DecidableEq α] :
    ∀ (l acc : List α) (x : α),
      (x ∈ l.foldl (fun acc x => if x ∈ acc then acc else acc ++ [x]) acc) ↔
        x ∈ acc ∨ x ∈ l := by
  intro l
  induction l with
  | nil => intro acc x; simp
  | cons a l ih =>
      intro acc x
      simp only [List.foldl_cons]
      by_cases ha : a ∈ acc
      · rw [if_pos ha, ih]
        constructor
        · rintro (h | h)
          · exact Or.inl h
          · exact Or.inr (List.mem_cons_of_mem _ h)
        · rintro (h | h)
          · exact Or.inl h
          · rcases List.mem_cons.mp h with rfl | h2
            · exact Or.inl ha
            · exact Or.inr h2
      · rw [if_neg ha, ih]
        simp only [List.mem_append, List.mem_singleton, List.mem_cons]
        tauto

theorem pyDedup_mem {α : Type} [DecidableEq α] (l : List α) (x : α) :
    x ∈ pyDedup l ↔ x ∈ l := by
  unfold pyDedup; rw [dedup_foldl_mem]; simp

theorem dedup_foldl_nodup {α : Type} [DecidableEq α] :
    ∀ (l acc : List α), acc.Nodup →
      (l.foldl (fun acc x => if x ∈ acc then acc else acc ++ [x]) acc).Nodup := by
  intro l
  induction l with
  | nil => intro acc h; simpa using h
  | cons a l ih =>
      intro acc hacc
      simp only [List.foldl_cons]
      by_cases ha : a ∈ acc
      · rw [if_pos ha]; exact ih acc hacc
      · rw [if_neg ha]
        refine ih (acc ++ [a]) ?_
        rw [List.nodup_append]
        refine ⟨hacc, List.nodup_singleton a, ?_⟩
        intro x hx hxa
        rw [List.mem_singleton] at hxa
        subst hxa
        exact ha hx

theorem pyDedup_nodup {α : Type} [DecidableEq α] (l : List α) :
    (pyDedup l).Nodup := dedup_foldl_nodup l [] List.nodup_nil

theorem dedup_foldl_map_inj {α β : Type} [DecidableEq α] [DecidableEq β] (f : α → β) :
    ∀ (l acc : List α),
      (∀ a, (a ∈ l ∨ a ∈ acc) → ∀ b, (b ∈ l ∨ b ∈ acc) → f a = f b → a = b) →
      (l.map f).foldl (fun acc x => if x ∈ acc then acc else acc ++ [x]) (acc.map f) =
        (l.foldl (fun acc x => if x ∈ acc then acc else acc ++ [x]) acc).map f := by
  intro l
  induction l with
  | nil => intro acc _; simp
  | cons a l ih =>
      intro acc hinj
      simp only [List.map_cons, List.foldl_cons]
      have hmem : (f a ∈ acc.map f) ↔ a ∈ acc := by
        constructor
        · intro h
          obtain ⟨b, hb, hfb⟩ := List.mem_map.mp h
          have := hinj b (Or.inr hb) a (Or.inl (List.mem_cons_self a l)) hfb
          rwa [← this]
        · exact List.mem_map_of_mem f
      by_cases ha : a ∈ acc
      · rw [if_pos (hmem.mpr ha), if_pos ha]
        exact ih acc (fun x hx y hy => hinj x (by tauto) y (by tauto))
      · rw [if_neg (fun h => ha (hmem.mp h)), if_neg ha]
        have hps : acc.map f ++ [f a] = (acc ++ [a]).map f := by simp
        rw [hps]
        refine ih (acc ++ [a]) ?_
        intro x hx y hy
        refine hinj x ?_ y ?_ <;>
          [skip; skip] <;>
          first
          | (rcases hx with hx | hx
             · exact Or.inl (List.mem_cons_of_mem _ hx)
             · rcases List.mem_append.mp hx with hx | hx
               · exact Or.inr hx
               · rw [List.mem_singleton] at hx; subst hx
                 exact Or.inl (List.mem_cons_self _ _))
          | (rcases hy with hy | hy
             · exact Or.inl (List.mem_cons_of_mem _ hy)
             · rcases List.mem_append.mp hy with hy | hy
               · exact Or.inr hy
               · rw [List.mem_singleton] at hy; subst hy
                 exact Or.inl (List.mem_cons_self _ _))

theorem pyDedup_map_inj {α β : Type} [DecidableEq α] [DecidableEq β] (f : α → β)
    (l : List α) (hinj : ∀ a ∈ l, ∀ b ∈ l, f a = f b → a = b) :
    pyDedup (l.map f) = (pyDedup l).map f := by
  unfold pyDedup
  have h0 : (([] : List α).map f) = ([] : List β) := rfl
  rw [← h0]
  exact dedup_foldl_map_inj f l []
    (fun a ha b hb => by
      rcases ha with ha | ha
      · rcases hb with hb | hb
        · exact hinj a ha b hb
        · exact absurd hb (List.not_mem_nil b)
      · exact absurd ha (List.not_mem_nil a))

theorem pyDedup_length_le (l : List Nat) (n : Nat) (h : ∀ i ∈ l, i < n) :
    (pyDedup l).length ≤ n := by
  have hnd := pyDedup_nodup l
  have hsub : (pyDedup l).toFinset ⊆ Finset.range n := by
    intro x hx
    rw [List.mem_toFinset] at hx
    rw [Finset.mem_range]
    exact h x ((pyDedup_mem l x).mp hx)
  calc (pyDedup l).length = (pyDedup l).toFinset.card :=
        (List.toFinset_card_of_nodup hnd).symm
    _ ≤ (Finset.range n).card := Finset.card_le_card hsub
    _ = n := Finset.card_range n

theorem mem_matched_lt (search : ℚ) (fakes dets : List (ℚ × ℚ)) (i : Nat)
    (h : i ∈ dets.filterMap (firstMatch search fakes)) : i < fakes.length := by
  rw [List.mem_filterMap] at h
  obtain ⟨p, _, hp⟩ := h
  exact (firstMatch_some search fakes p i hp).1

theorem matched_getD_inj (search : ℚ) (fakes dets : List (ℚ × ℚ)) :
    ∀ i ∈ dets.filterMap (firstMatch search fakes),
      ∀ j ∈ dets.filterMap (firstMatch search fakes),
        fakes.getD i (0, 0) = fakes.getD j (0, 0) → i = j := by
  have key : ∀ i j, i < j →
      (∃ p, p ∈ dets ∧ firstMatch search fakes p = some i) →
      (∃ q, q ∈ dets ∧ firstMatch search fakes q = some j) →
      fakes.getD i (0, 0) ≠ fakes.getD j (0, 0) := by
    rintro i j hij ⟨p, _, hp⟩ ⟨q, _, hq⟩ heq
    obtain ⟨_, hbox, hmin⟩ := firstMatch_some search fakes q j hq
    have hfail : boxMatch search q (fakes.getD i (0, 0)) = false := hmin i hij
    rw [heq, hbox] at hfail
    exact Bool.noConfusion hfail
  intro i hi j hj heq
  rw [List.mem_filterMap] at hi hj
  rcases Nat.lt_trichotomy i j with h | h | h
  · exact absurd heq (key i j h hi hj)
  · exact h
  · exact absurd heq.symm (key j i h hj hi)

theorem truths_fst (search : ℚ) (fakes dets : List (ℚ × ℚ)) :
    (truthsList search fakes dets).map Prod.fst =
      (dets.filterMap (firstMatch search fakes)).map (fun i => fakes.getD i (0, 0)) := by
  unfold truthsList
  rw [List.map_filterMap, List.map_filterMap]
  congr 1
  funext p
  cases firstMatch search fakes p <;> simp

theorem plantPixels_card (search : ℚ) (fakes dets : List (ℚ × ℚ)) :
    (pyDedup ((truthsList search fakes dets).map Prod.fst)).length =
      (distinctMatchedFakes search fakes dets).length := by
  rw [truths_fst,
    pyDedup_map_inj (fun i => fakes.getD i (0, 0)) _ (matched_getD_inj search fakes dets)]
  simp [distinctMatchedFakes]

/-- Claim C1 (counterexample): with the default `gridSize = 2`, a detection
at pixel `(12, 10)` sits at offset exactly `searchRadius = 2` from the fake
at `(10, 10)`; the claim says the inclusive box test credits it, but the
code's window test uses strict inequalities and rejects it, so the single
fake is scored undetected and efficiency is `0`. -/
theorem claim_C1_counterexample :
    boxMatch 2 (12, 10) (10, 10) = false ∧
    calcDetEffCore 2 ["000"] [((10 : ℚ), (10 : ℚ))] [((12 : ℚ), (10 : ℚ))] =
      Except.ok (0, [("000", 10, 10, 0)]) :=
  ⟨by with_unfolding_all rfl, by with_unfolding_all rfl⟩

/-- Claim C1 (amended): the per-pair window test of
`calculate_detection_efficiency` is an axis-aligned box test, and a
detection is credited to a fake exactly when both pixel-coordinate deltas
fall STRICTLY within `(-searchRadius, +searchRadius)`; an offset exactly
equal to `searchRadius` on an axis is NOT matched (exclusive boundary),
while any offset strictly smaller on both axes is. -/
theorem claim_C1_amended (search : ℚ) (pixel fake : ℚ × ℚ) :
    boxMatch search pixel fake = true ↔
      |pixel.1 - fake.1| < search ∧ |pixel.2 - fake.2| < search := by
  unfold boxMatch
  rw [Bool.and_eq_true, Bool.and_eq_true, Bool.and_eq_true]
  simp only [decide_eq_true_eq]
  rw [abs_sub_lt_iff, abs_sub_lt_iff]
  constructor
  · rintro ⟨⟨⟨h1, h2⟩, h3⟩, h4⟩
    exact ⟨⟨by linarith, by linarith⟩, by linarith, by linarith⟩
  · rintro ⟨⟨h1, h2⟩, h3, h4⟩
    exact ⟨⟨⟨by linarith, by linarith⟩, by linarith⟩, by linarith⟩

/-- Claim C6: for a nonempty set of fake locations,
`calculate_detection_efficiency` returns exactly
(number of distinct fakes matched) / (total number of fakes) together with
the per-fake detection table; the efficiency lies in `[0, 1]`, and it is `0`
when the detection catalog is empty. -/
theorem claim_C6_efficiency (search : ℚ) (fakeIds : List String)
    (fakes dets : List (ℚ × ℚ)) (hne : fakes ≠ []) :
    calcDetEffCore search fakeIds fakes dets =
      Except.ok (effValue search fakes dets,
        detectionTable search fakeIds fakes dets) ∧
    0 ≤ effValue search fakes dets ∧ effValue search fakes dets ≤ 1 ∧
    (dets = [] → effValue search fakes dets = 0) := by
  have hlen : fakes.length ≠ 0 := by simpa [List.length_eq_zero] using hne
  refine ⟨?_, ?_, ?_, ?_⟩
  · unfold calcDetEffCore effValue
    rw [if_neg hlen, plantPixels_card]
  · exact div_nonneg (Nat.cast_nonneg _) (Nat.cast_nonneg _)
  · have hpos : (0 : ℚ) < (fakes.length : ℚ) := by
      exact_mod_cast Nat.pos_of_ne_zero hlen
    rw [effValue, div_le_one hpos]
    exact_mod_cast pyDedup_length_le _ _ (mem_matched_lt search fakes dets)
  · intro h
    subst h
    simp [effValue, distinctMatchedFakes, pyDedup, zero_div]

/-- Witness for C6 at a concrete input: one fake at `(5, 5)`, one detection
exactly there, nonempty fake set, efficiency bounds as claimed. -/
theorem claim_C6_witness :
    ([((5 : ℚ), (5 : ℚ))] ≠ ([] : List (ℚ × ℚ))) ∧
    (calcDetEffCore 2 ["000"] [((5 : ℚ), (5 : ℚ))] [((5 : ℚ), (5 : ℚ))] =
      Except.ok (effValue 2 [((5 : ℚ), (5 : ℚ))] [((5 : ℚ), (5 : ℚ))],
        detectionTable 2 ["000"] [((5 : ℚ), (5 : ℚ))] [((5 : ℚ), (5 : ℚ))]) ∧
    0 ≤ effValue 2 [((5 : ℚ), (5 : ℚ))] [((5 : ℚ), (5 : ℚ))] ∧
    effValue 2 [((5 : ℚ), (5 : ℚ))] [((5 : ℚ), (5 : ℚ))] ≤ 1 ∧
    ([((5 : ℚ), (5 : ℚ))] = ([] : List (ℚ × ℚ)) →
      effValue 2 [((5 : ℚ), (5 : ℚ))] [((5 : ℚ), (5 : ℚ))] = 0)) :=
  ⟨List.cons_ne_nil _ _,
   claim_C6_efficiency 2 ["000"] [((5 : ℚ), (5 : ℚ))] [((5 : ℚ), (5 : ℚ))]
     (List.cons_ne_nil _ _)⟩

/-- Claim C9: on an image whose header holds no fake groups (no key
containing both `"FK"` and `"X"`), `calculate_detection_efficiency` divides
by the zero count of fake locations and raises `ZeroDivisionError`. -/
theorem claim_C9_zero_division (search : ℚ) (dets : List (ℚ × ℚ)) (h : Header)
    (hclean : ∀ k ∈ hkeys h, ¬(pyIn "FK" k = true ∧ pyIn "X" k = true)) :
    calcDetEffFromHeader search h dets = Except.error PyErr.zeroDivisionError := by
  have hf : (hkeys h).filter (fun k => pyIn "FK" k && pyIn "X" k) = [] := by
    rw [List.filter_eq_nil_iff]
    intro k hk
    simpa [Bool.and_eq_true] using hclean k hk
  unfold calcDetEffFromHeader getFakeLocations
  rw [hf]
  rfl

/-- Witness for C9 at a concrete input: a header with a single non-FK card. -/
theorem claim_C9_witness :
    (∀ k ∈ hkeys ([("SIMPLE", HVal.bool true)] : Header),
      ¬(pyIn "FK" k = true ∧ pyIn "X" k = true)) ∧
    calcDetEffFromHeader 2 [("SIMPLE", HVal.bool true)] [] =
      Except.error PyErr.zeroDivisionError :=
  ⟨by decide, claim_C9_zero_division 2 [] [("SIMPLE", HVal.bool true)] (by decide)⟩

/-- Claim C3 (code behavior at the failing input): two extracted stars whose
bounding boxes intersect.  The all-pairs sweep marks BOTH boxes for removal
(`intersections` holds both), but the removal loop mutates the list while
iterating over it, so after removing the first star the cursor skips the
second: the post-extraction pass returns the second star of the
intersecting pair instead of excluding both. -/
theorem claim_C3_code_bug :
    boxOverlap c3starA.bbox c3starB.bbox = true ∧
    intersectionsList boxOverlap [c3starA.bbox, c3starB.bbox] =
      [c3starA.bbox, c3starB.bbox] ∧
    postExtractionPass boxOverlap [c3starA, c3starB] = [c3starB] :=
  ⟨by with_unfolding_all rfl, by with_unfolding_all rfl,
   by with_unfolding_all rfl⟩

/-- Claim C5: neither `add_psf` nor `plant_fakes` mutates the original
science HDU — the pixel array and header of the original image are
bit-identical after the call (on every path, success or error); only the
returned copy carries the added PSF contributions and the new header
cards. -/
theorem claim_C5_non_mutation :
    (∀ (psfEval : ℚ → ℚ → ℚ → ℚ → ℚ → ℚ) (sky : ℚ → ℚ → String × String)
       (fstr : ℚ → String) (flux0 : ℚ) (img : FitsImageState)
       (pf : PosFluxInput),
      ((addPsf psfEval sky fstr flux0 img pf).1).sci = img.sci) ∧
    (∀ (sky : ℚ → ℚ → String × String) (fstr : ℚ → String)
       (planter : FakePlanterState) (epsf : List (List ℚ))
       (locations : List (ℚ × ℚ)) (SCA : Option (List ℚ)),
      ((plantFakes sky fstr planter epsf locations SCA).1).diffim.sci =
        planter.diffim.sci) := by
  constructor
  · intro psfEval sky fstr flux0 img pf
    simp only [addPsf]
    repeat' split
    all_goals rfl
  · intro sky fstr planter epsf locations SCA
    simp only [plantFakes]
    repeat' split
    all_goals rfl


theorem exceptBind_ok {α β : Type} {x : Except PyErr α} {f : α → Except PyErr β}
    {b : β} (h : x >>= f = Except.ok b) :
    ∃ a, x = Except.ok a ∧ f a = Except.ok b := by
  cases x with
  | error e =>
      rw [show (Except.error e >>= f : Except PyErr β) = Except.error e from rfl] at h
      exact Except.noConfusion h
  | ok a =>
      rw [show (Except.ok a >>= f : Except PyErr β) = f a from rfl] at h
      exact ⟨a, rfl, h⟩

theorem catScan_inv (h : Header) :
    ∀ (ks : List String) (acc acc' : CatAcc),
      (∀ k ∈ ks, k ∈ hkeys h) →
      (acc.F = acc.mods ∧
        ∀ i ∈ acc.fakes, ∃ k, k ∈ hkeys h ∧ strSlice k 0 2 = "FK" ∧
          pyIntOpt (strSlice k 2 5) = some i ∧
          hget h ("FK" ++ strSlice k 2 5 ++ "SCA") ≠ none) →
      List.foldlM (catStep h) acc ks = Except.ok acc' →
      (acc'.F = acc'.mods ∧
        ∀ i ∈ acc'.fakes, ∃ k, k ∈ hkeys h ∧ strSlice k 0 2 = "FK" ∧
          pyIntOpt (strSlice k 2 5) = some i ∧
          hget h ("FK" ++ strSlice k 2 5 ++ "SCA") ≠ none) := by
  intro ks
  induction ks with
  | nil =>
      intro acc acc' _ hP hfold
      rw [List.foldlM_nil] at hfold
      cases hfold
      exact hP
  | cons k ks ih =>
      intro acc acc' hks hP hfold
      rw [List.foldlM_cons] at hfold
      obtain ⟨acc1, hstep, hfold'⟩ := exceptBind_ok hfold
      refine ih acc1 acc' (fun k' hk' => hks k' (List.mem_cons_of_mem _ hk')) ?_ hfold'
      unfold catStep at hstep
      by_cases hFK : strSlice k 0 2 = "FK"
      · rw [if_pos hFK] at hstep
        split at hstep
        · cases hstep
        · rename_i idx hidx
          by_cases hin : idx ∈ acc.fakes
          · rw [if_pos hin] at hstep
            cases hstep
            exact hP
          · rw [if_neg hin] at hstep
            split at hstep
            · cases hstep
            rename_i vra hra
            split at hstep
            · cases hstep
            rename_i vdec hdec
            split at hstep
            · cases hstep
            rename_i vsca hsca
            split at hstep
            · cases hstep
            rename_i vf hmodf
            split at hstep
            · cases hstep
            rename_i vmod hmod
            split at hstep
            · cases hstep
            rename_i vx hx
            split at hstep
            · cases hstep
            rename_i vy hy
            cases hstep
            have hv : vf = vmod := Option.some.inj hmod
            constructor
            · show acc.F ++ [vf] = acc.mods ++ [vmod]
              rw [hP.1, hv]
            · intro i hi
              rcases List.mem_append.mp hi with hold | hnew
              · exact hP.2 i hold
              · rw [List.mem_singleton] at hnew
                subst hnew
                refine ⟨k, hks k (List.mem_cons_self _ _), hFK, hidx, ?_⟩
                rw [hsca]
                exact fun hcontra => Option.noConfusion hcontra
      · rw [if_neg hFK] at hstep
        cases hstep
        exact hP

/-- Claim C10: for any header, a successful `write_to_catalog` scan fills
both the `F` column and the `mod` column of the fake-source catalog from
the `FK<idx>MOD` card (the injected flux under `FK<idx>F` is never copied
into the catalog), and every identified fake group must have its
`FK<idx>SCA` card present in the header (the scan reads it and raises
`KeyError` otherwise). -/
theorem claim_C10_catalog (h : Header) (acc : CatAcc)
    (hok : buildFakeCatalog h = Except.ok acc) :
    acc.F = acc.mods ∧
    ∀ i ∈ acc.fakes, ∃ k, k ∈ hkeys h ∧ strSlice k 0 2 = "FK" ∧
      pyIntOpt (strSlice k 2 5) = some i ∧
      hget h ("FK" ++ strSlice k 2 5 ++ "SCA") ≠ none := by
  refine catScan_inv h (hkeys h) catAccInit acc (fun k hk => hk) ⟨rfl, ?_⟩ hok
  intro i hi
  simp [catAccInit] at hi

/-- Witness for C10 at a concrete input: a header with one complete fake
group; the catalog's `F` and `mod` columns both read `"NA"` (the `MOD`
card) although the header stores flux `9` under `FK000F`. -/
theorem claim_C10_witness :
    buildFakeCatalog c10h = Except.ok c10acc ∧
    (c10acc.F = c10acc.mods ∧
     ∀ i ∈ c10acc.fakes, ∃ k, k ∈ hkeys c10h ∧ strSlice k 0 2 = "FK" ∧
       pyIntOpt (strSlice k 2 5) = some i ∧
       hget c10h ("FK" ++ strSlice k 2 5 ++ "SCA") ≠ none) :=
  ⟨by with_unfolding_all rfl,
   claim_C10_catalog c10h c10acc (by with_unfolding_all rfl)⟩

/-! ## String and decimal-rendering lemmas -/

theorem str_append_data (a b : String) : (a ++ b).data = a.data ++ b.data := by
  cases a; cases b; rfl

theorem dval_digChar (d : Nat) (hd : d < 10) : dval (digChar d) = d := by
  interval_cases d <;> rfl

theorem isDig_digChar (d : Nat) (hd : d < 10) : isDig (digChar d) = true := by
  interval_cases d <;> rfl

theorem pyStrAux_foldl :
    ∀ (fuel n acc : Nat), n < fuel →
      (pyStrAux fuel n).foldl (fun a c => a * 10 + dval c) acc =
        acc * 10 ^ (pyStrAux fuel n).length + n := by
  intro fuel
  induction fuel with
  | zero => intro n acc h; omega
  | succ fuel ih =>
      intro n acc h
      unfold pyStrAux
      by_cases hn : n < 10
      · rw [if_pos hn]
        simp [List.foldl, dval_digChar n hn]
      · rw [if_neg hn]
        have hd : n / 10 < fuel := by
          have h1 : n / 10 < n := Nat.div_lt_self (by omega) (by omega)
          omega
        rw [List.foldl_append, ih (n / 10) acc hd]
        rw [List.length_append, List.length_singleton]
        rw [List.foldl_cons, List.foldl_nil]
        rw [dval_digChar (n % 10) (Nat.mod_lt _ (by omega))]
        rw [pow_succ]
        have hdm : 10 * (n / 10) + n % 10 = n := Nat.div_add_mod n 10
        calc (acc * 10 ^ (pyStrAux fuel (n / 10)).length + n / 10) * 10 + n % 10
            = acc * (10 ^ (pyStrAux fuel (n / 10)).length * 10) +
                (10 * (n / 10) + n % 10) := by ring
          _ = acc * (10 ^ (pyStrAux fuel (n / 10)).length * 10) + n := by rw [hdm]

theorem pyStrAux_digits :
    ∀ (fuel n : Nat), ∀ c ∈ pyStrAux fuel n, isDig c = true := by
  intro fuel
  induction fuel with
  | zero => intro n c hc; simp [pyStrAux] at hc
  | succ fuel ih =>
      intro n c hc
      unfold pyStrAux at hc
      by_cases hn : n < 10
      · rw [if_pos hn] at hc
        rw [List.mem_singleton] at hc
        subst hc
        exact isDig_digChar n hn
      · rw [if_neg hn] at hc
        rcases List.mem_append.mp hc with hc | hc
        · exact ih (n / 10) c hc
        · rw [List.mem_singleton] at hc
          subst hc
          exact isDig_digChar (n % 10) (Nat.mod_lt _ (by omega))

theorem pyStrAux_len_le :
    ∀ (fuel n k : Nat), n < fuel → n < 10 ^ (k + 1) →
      (pyStrAux fuel n).length ≤ k + 1 := by
  intro fuel
  induction fuel with
  | zero => intro n k h; omega
  | succ fuel ih =>
      intro n k h hk
      unfold pyStrAux
      by_cases hn : n < 10
      · rw [if_pos hn]; simp
      · rw [if_neg hn]
        rw [List.length_append, List.length_singleton]
        cases k with
        | zero => simp [pow_one] at hk; omega
        | succ k =>
            have hd : n / 10 < fuel := by
              have h1 : n / 10 < n := Nat.div_lt_self (by omega) (by omega)
              omega
            have hdk : n / 10 < 10 ^ (k + 1) := by
              rw [Nat.div_lt_iff_lt_mul (by omega)]
              calc n < 10 ^ (k + 1 + 1) := hk
                _ = 10 ^ (k + 1) * 10 := by rw [pow_succ]
            have := ih (n / 10) k hd hdk
            omega

theorem pyStr_parse (n : Nat) : pyIntChars (pyStr n).data = n := by
  unfold pyStr pyIntChars
  show (pyStrAux (n + 1) n).foldl (fun a c => a * 10 + dval c) 0 = n
  rw [pyStrAux_foldl (n + 1) n 0 (Nat.lt_succ_self n)]
  simp

theorem pyIntChars_replicate (m : Nat) (cs : List Char) :
    pyIntChars (List.replicate m '0' ++ cs) = pyIntChars cs := by
  induction m with
  | zero => simp
  | succ m ih =>
      unfold pyIntChars at ih ⊢
      rw [List.replicate_succ, List.cons_append, List.foldl_cons]
      simpa using ih

theorem fkCode_data (n : Nat) :
    (fkCode n).data =
      List.replicate (3 - (pyStrAux (n + 1) n).length) '0' ++ pyStrAux (n + 1) n := rfl

theorem fkCode_parse (n : Nat) : pyIntChars (fkCode n).data = n := by
  rw [fkCode_data, pyIntChars_replicate]
  exact pyStr_parse n

theorem fkCode_inj (m n : Nat) (h : fkCode m = fkCode n) : m = n := by
  have := congrArg (fun s => pyIntChars s.data) h
  simpa [fkCode_parse] using this

theorem fkCode_digits (n : Nat) : ∀ c ∈ (fkCode n).data, isDig c = true := by
  intro c hc
  rw [fkCode_data] at hc
  rcases List.mem_append.mp hc with hc | hc
  · rw [List.eq_of_mem_replicate hc]; rfl
  · exact pyStrAux_digits (n + 1) n c hc

theorem fkCode_len (n : Nat) (hn : n ≤ 999) : (fkCode n).data.length = 3 := by
  rw [fkCode_data]
  rw [List.length_append, List.length_replicate]
  have h1 : (pyStrAux (n + 1) n).length ≤ 3 :=
    pyStrAux_len_le (n + 1) n 2 (Nat.lt_succ_self n) (by omega)
  omega

theorem digits_letter_split :
    ∀ (a b s t : List Char),
      (∀ c ∈ a, isDig c = true) → (∀ c ∈ b, isDig c = true) →
      (∀ c, s.head? = some c → isDig c = false) → s ≠ [] →
      (∀ c, t.head? = some c → isDig c = false) → t ≠ [] →
      a ++ s = b ++ t → a = b ∧ s = t := by
  intro a
  induction a with
  | nil =>
      intro b s t _ hb hs _ _ htne heq
      rw [List.nil_append] at heq
      cases b with
      | nil => rw [List.nil_append] at heq; exact ⟨rfl, heq⟩
      | cons c b' =>
          exfalso
          rw [List.cons_append] at heq
          have h1 : isDig c = false := hs c (by rw [heq]; rfl)
          have h2 : isDig c = true := hb c (List.mem_cons_self _ _)
          rw [h1] at h2
          exact Bool.noConfusion h2
  | cons c a' ih =>
      intro b s t ha hb hs hsne ht htne heq
      cases b with
      | nil =>
          exfalso
          rw [List.nil_append, List.cons_append] at heq
          have h1 : isDig c = false := ht c (by rw [← heq]; rfl)
          have h2 : isDig c = true := ha c (List.mem_cons_self _ _)
          rw [h1] at h2
          exact Bool.noConfusion h2
      | cons d b' =>
          rw [List.cons_append, List.cons_append] at heq
          injection heq with h1 h2
          subst h1
          obtain ⟨hab, hst⟩ := ih b' s t
            (fun x hx => ha x (List.mem_cons_of_mem _ hx))
            (fun x hx => hb x (List.mem_cons_of_mem _ hx)) hs hsne ht htne h2
          exact ⟨by rw [hab], hst⟩

/-! ## FK-key lemmas -/

theorem fkKey_data (n : Nat) (sfx : String) :
    (fkKey n sfx).data = 'F' :: 'K' :: ((fkCode n).data ++ sfx.data) := by
  unfold fkKey
  rw [str_append_data, str_append_data]
  rfl

theorem goodSuffix_spec (s : String) (hg : goodSuffix s = true) :
    s.data ≠ [] ∧ ∀ c, s.data.head? = some c → isDig c = false := by
  unfold goodSuffix at hg
  cases hd : s.data with
  | nil => rw [hd] at hg; cases hg
  | cons c cs =>
      rw [hd] at hg
      constructor
      · exact List.cons_ne_nil _ _
      · intro c' hc'
        have hcc : c' = c := by
          have hh : (c :: cs).head? = some c := rfl
          rw [hh] at hc'
          exact (Option.some.inj hc').symm
        subst hcc
        simpa using hg

theorem fkKey_inj (m n : Nat) (s t : String) (hs : goodSuffix s = true)
    (ht : goodSuffix t = true) (h : fkKey m s = fkKey n t) : m = n ∧ s = t := by
  have hd := congrArg String.data h
  rw [fkKey_data, fkKey_data] at hd
  injection hd with _ hd1
  injection hd1 with _ hd2
  obtain ⟨hsne, hshead⟩ := goodSuffix_spec s hs
  obtain ⟨htne, hthead⟩ := goodSuffix_spec t ht
  obtain ⟨hcode, hsfx⟩ := digits_letter_split (fkCode m).data (fkCode n).data
    s.data t.data (fkCode_digits m) (fkCode_digits n) hshead hsne hthead htne hd2
  exact ⟨fkCode_inj m n (String.ext_iff.mpr hcode), String.ext_iff.mpr hsfx⟩

theorem fkKey_ne_of_idx (m n : Nat) (s t : String) (hs : goodSuffix s = true)
    (ht : goodSuffix t = true) (hmn : m ≠ n) : fkKey m s ≠ fkKey n t :=
  fun h => hmn (fkKey_inj m n s t hs ht h).1

theorem fkKey_ne_of_sfx (m n : Nat) (s t : String) (hs : goodSuffix s = true)
    (ht : goodSuffix t = true) (hst : s ≠ t) : fkKey m s ≠ fkKey n t :=
  fun h => hst (fkKey_inj m n s t hs ht h).2

theorem goodSuffix_all : ∀ s ∈ allSuffixes, goodSuffix s = true := by decide

theorem goodSuffix_plant : ∀ s ∈ plantSuffixes, goodSuffix s = true := by decide

theorem goodSuffix_addPsf : ∀ s ∈ addPsfSuffixes, goodSuffix s = true := by decide

theorem fkKey_ne_fakeSN (n : Nat) (sfx : String) : fkKey n sfx ≠ "fakeSN" := by
  intro h
  have hd := congrArg String.data h
  rw [fkKey_data] at hd
  injection hd with h1 _
  exact absurd h1 (by decide)

theorem fkKey_ne_Nfake (n : Nat) (sfx : String) : fkKey n sfx ≠ "N_fake" := by
  intro h
  have hd := congrArg String.data h
  rw [fkKey_data] at hd
  injection hd with h1 _
  exact absurd h1 (by decide)

theorem fkKey_ne_Fepsf (n : Nat) (sfx : String) : fkKey n sfx ≠ "F_epsf" := by
  intro h
  have hd := congrArg String.data h
  rw [fkKey_data] at hd
  injection hd with _ hd1
  injection hd1 with h2 _
  exact absurd h2 (by decide)

/-! ## Substring-test lemmas -/

theorem pyIn_FK_fkKey (n : Nat) (sfx : String) : pyIn "FK" (fkKey n sfx) = true := by
  unfold pyIn
  rw [fkKey_data]
  show subAt ['F', 'K'] ('F' :: 'K' :: ((fkCode n).data ++ sfx.data)) = true
  unfold subAt chPre
  simp [chPre]

theorem subAt_singleton (c : Char) : ∀ l : List Char, (subAt [c] l = true) ↔ c ∈ l := by
  intro l
  induction l with
  | nil => simp [subAt, List.isEmpty]
  | cons b bs ih =>
      unfold subAt
      rw [Bool.or_eq_true, ih]
      unfold chPre
      simp [chPre, List.mem_cons, beq_iff_eq]

theorem pyIn_X_fkKey_X (n : Nat) : pyIn "X" (fkKey n "X") = true := by
  unfold pyIn
  rw [show "X".data = ['X'] from rfl, subAt_singleton, fkKey_data]
  simp

theorem pyIn_X_fkKey_ne (n : Nat) (sfx : String) (hnx : 'X' ∉ sfx.data) :
    pyIn "X" (fkKey n sfx) = false := by
  unfold pyIn
  rw [show "X".data = ['X'] from rfl]
  rw [Bool.eq_false_iff, Ne, subAt_singleton, fkKey_data]
  intro hmem
  rcases List.mem_cons.mp hmem with h | h
  · exact absurd h (by decide)
  rcases List.mem_cons.mp h with h | h
  · exact absurd h (by decide)
  rcases List.mem_append.mp h with h | h
  · have := fkCode_digits n 'X' h
    exact absurd this (by decide)
  · exact hnx h

/-! ## Header-assignment lemmas -/

theorem mem_hkeys_any (h : Header) (k : String) :
    (h.any (fun kv => kv.1 = k)) = true ↔ k ∈ hkeys h := by
  rw [List.any_eq_true]
  unfold hkeys
  rw [List.mem_map]
  constructor
  · rintro ⟨kv, hkv, hp⟩
    exact ⟨kv, hkv, by simpa using hp⟩
  · rintro ⟨kv, hkv, hp⟩
    exact ⟨kv, hkv, by simpa using hp⟩

theorem hset_fresh (h : Header) (k : String) (v : HVal) (hk : k ∉ hkeys h) :
    hset h k v = h ++ [(k, v)] := by
  unfold hset
  rw [if_neg (fun hc => hk ((mem_hkeys_any h k).mp hc))]

theorem find?_eq_none_of_not_mem (h : Header) (k : String) (hk : k ∉ hkeys h) :
    List.find? (fun kv => kv.1 = k) h = none := by
  rw [List.find?_eq_none]
  intro kv hkv hp
  exact hk ((mem_hkeys_any h k).mp (List.any_eq_true.mpr ⟨kv, hkv, hp⟩))

theorem hget_of_not_mem (h : Header) (k : String) (hk : k ∉ hkeys h) :
    hget h k = none := by
  unfold hget
  rw [find?_eq_none_of_not_mem h k hk]
  rfl

theorem hget_append (a b : Header) (k : String) :
    hget (a ++ b) k = (hget a k).or (hget b k) := by
  unfold hget
  rw [List.find?_append]
  cases List.find? (fun kv => kv.1 = k) a <;> rfl

theorem hkeys_append (a b : Header) : hkeys (a ++ b) = hkeys a ++ hkeys b := by
  unfold hkeys
  exact List.map_append _ _ _

theorem find?_replace_ne (k k' : String) (v : HVal) (hne : k' ≠ k) :
    ∀ h : Header,
      List.find? (fun kv => kv.1 = k)
        (h.map (fun kv => if kv.1 = k' then (k', v) else kv)) =
      List.find? (fun kv => kv.1 = k) h := by
  intro h
  induction h with
  | nil => rfl
  | cons kv t ih =>
      rw [List.map_cons, List.find?_cons, List.find?_cons]
      by_cases hkv : kv.1 = k'
      · rw [if_pos hkv]
        have h1 : (decide ((k', v).1 = k)) = false := by
          simp [hne]
        have h2 : (decide (kv.1 = k)) = false := by
          simp [hkv, hne]
        rw [h1, h2]
        exact ih
      · rw [if_neg hkv]
        cases hd : decide (kv.1 = k)
        · exact ih
        · rfl

theorem hget_hset_ne (h : Header) (k k' : String) (v : HVal) (hne : k' ≠ k) :
    hget (hset h k' v) k = hget h k := by
  unfold hset
  by_cases hc : (h.any (fun kv => kv.1 = k')) = true
  · rw [if_pos hc]
    unfold hget
    rw [find?_replace_ne k k' v hne h]
  · rw [if_neg hc]
    unfold hget
    rw [List.find?_append]
    have h1 : List.find? (fun kv => kv.1 = k) [(k', v)] = none := by
      simp [List.find?, hne]
    rw [h1]
    cases List.find? (fun kv => kv.1 = k) h <;> rfl

theorem hget_hset_self (h : Header) (k : String) (v : HVal) :
    hget (hset h k v) k = some v := by
  unfold hset
  by_cases hc : (h.any (fun kv => kv.1 = k)) = true
  · rw [if_pos hc]
    have hmem := (mem_hkeys_any h k).mp hc
    unfold hkeys at hmem
    rw [List.mem_map] at hmem
    obtain ⟨kv0, hkv0, hfst⟩ := hmem
    unfold hget
    induction h with
    | nil => cases hkv0
    | cons kv t ih =>
        rw [List.map_cons, List.find?_cons]
        by_cases hkv : kv.1 = k
        · rw [if_pos hkv]
          have h1 : (decide ((k, v).1 = k)) = true := by simp
          rw [h1]
          rfl
        · rw [if_neg hkv]
          have h2 : (decide (kv.1 = k)) = false := by simp [hkv]
          rw [h2]
          rcases List.mem_cons.mp hkv0 with hh | hh
          · exact absurd (by rw [hh] at hfst; exact hfst) hkv
          · exact ih (List.any_eq_true.mpr ⟨kv0, hh, by simpa using hfst⟩) hh
  · rw [if_neg hc]
    unfold hget
    rw [List.find?_append]
    have h0 : List.find? (fun kv => kv.1 = k) h = none := by
      rw [List.find?_eq_none]
      intro kv hkv hp
      exact hc (List.any_eq_true.mpr ⟨kv, hkv, hp⟩)
    rw [h0]
    simp [List.find?]

theorem hkeys_hset (h : Header) (k : String) (v : HVal) :
    hkeys (hset h k v) = if k ∈ hkeys h then hkeys h else hkeys h ++ [k] := by
  unfold hset
  by_cases hc : (h.any (fun kv => kv.1 = k)) = true
  · rw [if_pos hc, if_pos ((mem_hkeys_any h k).mp hc)]
    unfold hkeys
    rw [List.map_map]
    apply List.map_congr_left
    intro kv _
    by_cases hkv : kv.1 = k
    · simp [hkv]
    · simp [hkv]
  · rw [if_neg hc, if_neg (fun hm => hc ((mem_hkeys_any h k).mpr hm))]
    unfold hkeys
    rw [List.map_append]
    rfl

theorem hsetMany_fresh :
    ∀ (entries : List (String × HVal)) (h : Header),
      (entries.map Prod.fst).Nodup →
      (∀ k ∈ entries.map Prod.fst, k ∉ hkeys h) →
      hsetMany h entries = h ++ entries := by
  intro entries
  induction entries with
  | nil => intro h _ _; simp [hsetMany]
  | cons e es ih =>
      intro h hnd hf
      unfold hsetMany
      rw [List.foldl_cons]
      have h1 : hset h e.1 e.2 = h ++ [(e.1, e.2)] :=
        hset_fresh h e.1 e.2 (hf e.1 (by simp))
      have h2 : ((e.1, e.2) : String × HVal) = e := rfl
      rw [h2] at h1
      rw [h1]
      have hnd' : (e.1 :: es.map Prod.fst).Nodup := by simpa using hnd
      have h3 : hsetMany (h ++ [e]) es = (h ++ [e]) ++ es := by
        apply ih
        · exact (List.nodup_cons.mp hnd').2
        · intro k hk
          rw [hkeys_append]
          intro hmem
          rcases List.mem_append.mp hmem with hm | hm
          · exact hf k (by simp [hk]) hm
          · have hk1 : k = e.1 := by
              unfold hkeys at hm
              simpa using hm
            have hnotin := (List.nodup_cons.mp hnd').1
            rw [hk1] at hk
            exact hnotin hk
      unfold hsetMany at h3
      rw [h3]
      simp

/-! ## Injection-loop characterization -/

theorem hsetMany_append (h : Header) (a b : List (String × HVal)) :
    hsetMany h (a ++ b) = hsetMany (hsetMany h a) b := by
  unfold hsetMany
  rw [List.foldl_append]

theorem fkKey_map_nodup (n : Nat) (sfxs : List String)
    (hgood : ∀ s ∈ sfxs, goodSuffix s = true) (hnd : sfxs.Nodup) :
    (sfxs.map (fun s => fkKey n s)).Nodup := by
  refine List.Nodup.map_on ?_ hnd
  intro s hs t ht heq
  exact (fkKey_inj n n s t (hgood s hs) (hgood t ht) heq).2

theorem plantGroup_keys (sky : ℚ → ℚ → String × String) (epsf : List (List ℚ))
    (n : Nat) (x y sca : ℚ) :
    (plantGroup sky epsf n x y sca).map Prod.fst =
      plantSuffixes.map (fun s => fkKey n s) := rfl

theorem addPsfGroup_keys (sky : ℚ → ℚ → String × String) (n : Nat) (row : PFRow) :
    (addPsfGroup sky n row).map Prod.fst =
      addPsfSuffixes.map (fun s => fkKey n s) := rfl

theorem scaSel_of_ok (SCA : Option (List ℚ)) (n : Nat) (sca : ℚ)
    (hsca : (match SCA with
             | some (s :: ss) =>
                 match (s :: ss).get? n with
                 | some sv => Except.ok sv
                 | none => Except.error PyErr.indexError
             | _ => (Except.ok 1 : Except PyErr ℚ)) = Except.ok sca) :
    scaSel SCA n = sca := by
  unfold scaSel
  cases SCA with
  | none => exact Option.some.inj (congrArg Except.toOption hsca)
  | some l =>
      cases l with
      | nil => exact Option.some.inj (congrArg Except.toOption hsca)
      | cons s ss =>
          have hsca' : (match (s :: ss).get? n with
              | some sv => (Except.ok sv : Except PyErr ℚ)
              | none => Except.error PyErr.indexError) = Except.ok sca := hsca
          show (s :: ss).getD n 0 = sca
          cases hg : (s :: ss).get? n with
          | none => rw [hg] at hsca'; cases hsca'
          | some sv =>
              rw [hg] at hsca'
              have hv : sv = sca := Option.some.inj (congrArg Except.toOption hsca')
              unfold List.getD
              rw [hg]
              exact hv

theorem plantFakesLoop_ok (sky : ℚ → ℚ → String × String) (epsf : List (List ℚ))
    (SCA : Option (List ℚ)) :
    ∀ (locs : List (ℚ × ℚ)) (n₀ : Nat) (h : Header) (im : List (List ℚ))
      (hres : Header × List (List ℚ)),
      (∀ k ∈ hkeys h, ∀ m, n₀ ≤ m → ∀ sfx ∈ plantSuffixes, k ≠ fkKey m sfx) →
      plantFakesLoop sky epsf SCA n₀ locs h im = Except.ok hres →
      hres.1 = h ++ plantGroupsFrom sky epsf SCA n₀ locs := by
  intro locs
  induction locs with
  | nil =>
      intro n₀ h im hres _ hok
      unfold plantFakesLoop at hok
      cases hok
      simp [plantGroupsFrom]
  | cons loc rest ih =>
      intro n₀ h im hres hfresh hok
      obtain ⟨xp, yp⟩ := loc
      simp only [plantFakesLoop] at hok
      split at hok
      · cases hok
      · rename_i sca hsca
        split at hok
        · cases hok
        · rename_i im' him
          have hsel : scaSel SCA n₀ = sca := scaSel_of_ok SCA n₀ sca hsca
          have hgrp :
              hsetMany
                (hsetMany h
                  [(fkKey n₀ "X", HVal.num xp), (fkKey n₀ "Y", HVal.num yp),
                   (fkKey n₀ "RA", HVal.str (sky xp yp).1),
                   (fkKey n₀ "DEC", HVal.str (sky xp yp).2)])
                [(fkKey n₀ "SCA", HVal.num sca),
                 (fkKey n₀ "F", HVal.num (matSum (scaleMat sca epsf))),
                 (fkKey n₀ "MOD", HVal.str "NA")] =
              hsetMany h (plantGroup sky epsf n₀ xp yp sca) := by
            rw [← hsetMany_append]
            rfl
          have hfreshGrp : hsetMany h (plantGroup sky epsf n₀ xp yp sca) =
              h ++ plantGroup sky epsf n₀ xp yp sca := by
            apply hsetMany_fresh
            · rw [plantGroup_keys]
              exact fkKey_map_nodup n₀ plantSuffixes goodSuffix_plant (by decide)
            · intro k hk
              rw [plantGroup_keys] at hk
              obtain ⟨s, hsmem, hkey⟩ := List.mem_map.mp hk
              intro hmem
              exact hfresh k hmem n₀ (le_refl _) s hsmem hkey.symm
          rw [hgrp, hfreshGrp] at hok
          have hres1 := ih (n₀ + 1) (h ++ plantGroup sky epsf n₀ xp yp sca) im' hres
            (by
              intro k hmem m hm sfx hsfx
              rw [hkeys_append] at hmem
              rcases List.mem_append.mp hmem with hmem | hmem
              · exact hfresh k hmem m (by omega) sfx hsfx
              · have hk2 : k ∈ plantSuffixes.map (fun s => fkKey n₀ s) := by
                  rw [← plantGroup_keys sky epsf n₀ xp yp sca]
                  exact hmem
                obtain ⟨s, hsmem, hkey⟩ := List.mem_map.mp hk2
                rw [← hkey]
                exact fkKey_ne_of_idx n₀ m s sfx (goodSuffix_plant s hsmem)
                  (goodSuffix_plant sfx hsfx) (by omega))
            hok
          rw [hres1]
          show (h ++ plantGroup sky epsf n₀ xp yp sca) ++
              plantGroupsFrom sky epsf SCA (n₀ + 1) rest =
            h ++ plantGroupsFrom sky epsf SCA n₀ ((xp, yp) :: rest)
          rw [List.append_assoc]
          rw [show plantGroupsFrom sky epsf SCA n₀ ((xp, yp) :: rest) =
              plantGroup sky epsf n₀ xp yp (scaSel SCA n₀) ++
                plantGroupsFrom sky epsf SCA (n₀ + 1) rest from rfl]
          rw [hsel]

theorem addPsfLoop_header (psfEval : ℚ → ℚ → ℚ → ℚ → ℚ → ℚ)
    (sky : ℚ → ℚ → String × String) :
    ∀ (rows : List PFRow) (n₀ : Nat) (h : Header) (im : List (List ℚ)) (fl : ℚ),
      (∀ k ∈ hkeys h, ∀ m, n₀ ≤ m → ∀ sfx ∈ addPsfSuffixes, k ≠ fkKey m sfx) →
      (addPsfLoop psfEval sky n₀ rows h im fl).1 =
        h ++ addPsfGroupsFrom sky n₀ rows := by
  intro rows
  induction rows with
  | nil =>
      intro n₀ h im fl _
      unfold addPsfLoop addPsfGroupsFrom
      simp
  | cons row rest ih =>
      intro n₀ h im fl hfresh
      simp only [addPsfLoop]
      have hfreshGrp : hsetMany h (addPsfGroup sky n₀ row) =
          h ++ addPsfGroup sky n₀ row := by
        apply hsetMany_fresh
        · rw [addPsfGroup_keys]
          exact fkKey_map_nodup n₀ addPsfSuffixes goodSuffix_addPsf (by decide)
        · intro k hk
          rw [addPsfGroup_keys] at hk
          obtain ⟨s, hsmem, hkey⟩ := List.mem_map.mp hk
          intro hmem
          exact hfresh k hmem n₀ (le_refl _) s hsmem hkey.symm
      rw [hfreshGrp]
      rw [ih (n₀ + 1) (h ++ addPsfGroup sky n₀ row) _ _
        (by
          intro k hmem m hm sfx hsfx
          rw [hkeys_append] at hmem
          rcases List.mem_append.mp hmem with hmem | hmem
          · exact hfresh k hmem m (by omega) sfx hsfx
          · have hk2 : k ∈ addPsfSuffixes.map (fun s => fkKey n₀ s) := by
              rw [← addPsfGroup_keys sky n₀ row]
              exact hmem
            obtain ⟨s, hsmem, hkey⟩ := List.mem_map.mp hk2
            rw [← hkey]
            exact fkKey_ne_of_idx n₀ m s sfx (goodSuffix_addPsf s hsmem)
              (goodSuffix_addPsf sfx hsfx) (by omega))]
      rw [List.append_assoc]
      rfl

/-! ## Group-key membership and lookup lemmas -/

theorem hget_isSome_of_mem (h : Header) (k : String) (hk : k ∈ hkeys h) :
    ∃ v, hget h k = some v := by
  induction h with
  | nil => simp [hkeys] at hk
  | cons kv t ih =>
      by_cases hkv : kv.1 = k
      · exact ⟨kv.2, by unfold hget; rw [List.find?_cons_of_pos _ (by simp [hkv])]; rfl⟩
      · have hk' : k ∈ hkeys t := by
          unfold hkeys at hk
          rcases List.mem_cons.mp hk with hh | hh
          · exact absurd hh.symm hkv
          · exact hh
        obtain ⟨v, hv⟩ := ih hk'
        refine ⟨v, ?_⟩
        unfold hget at hv ⊢
        rw [List.find?_cons_of_neg _ (by simp [hkv])]
        exact hv

theorem option_none_or {α : Type} (x : Option α) : (Option.or none x) = x := by
  cases x <;> rfl

theorem option_some_or {α : Type} (a : α) (x : Option α) :
    (Option.or (some a) x) = some a := rfl

theorem plantGroups_cons (sky : ℚ → ℚ → String × String) (epsf : List (List ℚ))
    (SCA : Option (List ℚ)) (n₀ : Nat) (xp yp : ℚ) (rest : List (ℚ × ℚ)) :
    plantGroupsFrom sky epsf SCA n₀ ((xp, yp) :: rest) =
      plantGroup sky epsf n₀ xp yp (scaSel SCA n₀) ++
        plantGroupsFrom sky epsf SCA (n₀ + 1) rest := rfl

theorem addGroups_cons (sky : ℚ → ℚ → String × String) (n₀ : Nat) (row : PFRow)
    (rest : List PFRow) :
    addPsfGroupsFrom sky n₀ (row :: rest) =
      addPsfGroup sky n₀ row ++ addPsfGroupsFrom sky (n₀ + 1) rest := rfl

theorem hkeys_plantGroup (sky : ℚ → ℚ → String × String) (epsf : List (List ℚ))
    (n : Nat) (x y sca : ℚ) :
    hkeys (plantGroup sky epsf n x y sca) = plantSuffixes.map (fun s => fkKey n s) := rfl

theorem hkeys_addPsfGroup (sky : ℚ → ℚ → String × String) (n : Nat) (row : PFRow) :
    hkeys (addPsfGroup sky n row) = addPsfSuffixes.map (fun s => fkKey n s) := rfl

theorem fkKeyX_mem_plantGroups (sky : ℚ → ℚ → String × String)
    (epsf : List (List ℚ)) (SCA : Option (List ℚ)) :
    ∀ (locs : List (ℚ × ℚ)) (n₀ n : Nat),
      (fkKey n "X" ∈ hkeys (plantGroupsFrom sky epsf SCA n₀ locs)) ↔
        (n₀ ≤ n ∧ n < n₀ + locs.length) := by
  intro locs
  induction locs with
  | nil =>
      intro n₀ n
      show fkKey n "X" ∈ hkeys ([] : Header) ↔ _
      simp [hkeys]
  | cons loc rest ih =>
      intro n₀ n
      obtain ⟨xp, yp⟩ := loc
      rw [plantGroups_cons, hkeys_append, List.mem_append, hkeys_plantGroup]
      have hgk : (fkKey n "X" ∈ plantSuffixes.map (fun s => fkKey n₀ s)) ↔ n = n₀ := by
        rw [List.mem_map]
        constructor
        · rintro ⟨s, hs, hkey⟩
          exact ((fkKey_inj n₀ n s "X" (goodSuffix_plant s hs) (by decide) hkey).1).symm
        · rintro rfl
          exact ⟨"X", by decide, rfl⟩
      rw [hgk, ih (n₀ + 1) n]
      simp only [List.length_cons]
      constructor
      · rintro (rfl | ⟨h1, h2⟩)
        · exact ⟨le_refl _, by omega⟩
        · exact ⟨by omega, by omega⟩
      · rintro ⟨h1, h2⟩
        by_cases hn : n = n₀
        · exact Or.inl hn
        · exact Or.inr ⟨by omega, by omega⟩

theorem fkKeyX_mem_addGroups (sky : ℚ → ℚ → String × String) :
    ∀ (rows : List PFRow) (n₀ n : Nat),
      (fkKey n "X" ∈ hkeys (addPsfGroupsFrom sky n₀ rows)) ↔
        (n₀ ≤ n ∧ n < n₀ + rows.length) := by
  intro rows
  induction rows with
  | nil =>
      intro n₀ n
      show fkKey n "X" ∈ hkeys ([] : Header) ↔ _
      simp [hkeys]
  | cons row rest ih =>
      intro n₀ n
      rw [addGroups_cons, hkeys_append, List.mem_append, hkeys_addPsfGroup]
      have hgk : (fkKey n "X" ∈ addPsfSuffixes.map (fun s => fkKey n₀ s)) ↔ n = n₀ := by
        rw [List.mem_map]
        constructor
        · rintro ⟨s, hs, hkey⟩
          exact ((fkKey_inj n₀ n s "X" (goodSuffix_addPsf s hs) (by decide) hkey).1).symm
        · rintro rfl
          exact ⟨"X", by decide, rfl⟩
      rw [hgk, ih (n₀ + 1) n]
      simp only [List.length_cons]
      constructor
      · rintro (rfl | ⟨h1, h2⟩)
        · exact ⟨le_refl _, by omega⟩
        · exact ⟨by omega, by omega⟩
      · rintro ⟨h1, h2⟩
        by_cases hn : n = n₀
        · exact Or.inl hn
        · exact Or.inr ⟨by omega, by omega⟩

theorem fkKey_mem_plantGroups (sky : ℚ → ℚ → String × String)
    (epsf : List (List ℚ)) (SCA : Option (List ℚ)) :
    ∀ (locs : List (ℚ × ℚ)) (n₀ j : Nat), j < locs.length →
      ∀ sfx ∈ plantSuffixes,
        fkKey (n₀ + j) sfx ∈ hkeys (plantGroupsFrom sky epsf SCA n₀ locs) := by
  intro locs
  induction locs with
  | nil => intro n₀ j hj; simp at hj
  | cons loc rest ih =>
      intro n₀ j hj sfx hsfx
      obtain ⟨xp, yp⟩ := loc
      rw [plantGroups_cons, hkeys_append, List.mem_append, hkeys_plantGroup]
      cases j with
      | zero =>
          left
          exact List.mem_map.mpr ⟨sfx, hsfx, by rw [Nat.add_zero]⟩
      | succ j =>
          right
          have hmem := ih (n₀ + 1) j (by simp only [List.length_cons] at hj; omega) sfx hsfx
          rw [show n₀ + (j + 1) = (n₀ + 1) + j from by omega]
          exact hmem

theorem fkKey_mem_addGroups (sky : ℚ → ℚ → String × String) :
    ∀ (rows : List PFRow) (n₀ j : Nat), j < rows.length →
      ∀ sfx ∈ addPsfSuffixes,
        fkKey (n₀ + j) sfx ∈ hkeys (addPsfGroupsFrom sky n₀ rows) := by
  intro rows
  induction rows with
  | nil => intro n₀ j hj; simp at hj
  | cons row rest ih =>
      intro n₀ j hj sfx hsfx
      rw [addGroups_cons, hkeys_append, List.mem_append, hkeys_addPsfGroup]
      cases j with
      | zero =>
          left
          exact List.mem_map.mpr ⟨sfx, hsfx, by rw [Nat.add_zero]⟩
      | succ j =>
          right
          have hmem := ih (n₀ + 1) j (by simp only [List.length_cons] at hj; omega) sfx hsfx
          rw [show n₀ + (j + 1) = (n₀ + 1) + j from by omega]
          exact hmem

theorem fkKeySCA_notmem_addGroups (sky : ℚ → ℚ → String × String) :
    ∀ (rows : List PFRow) (n₀ n : Nat),
      fkKey n "SCA" ∉ hkeys (addPsfGroupsFrom sky n₀ rows) := by
  intro rows
  induction rows with
  | nil => intro n₀ n; show fkKey n "SCA" ∉ hkeys ([] : Header); simp [hkeys]
  | cons row rest ih =>
      intro n₀ n
      rw [addGroups_cons, hkeys_append]
      intro hmem
      rcases List.mem_append.mp hmem with hm | hm
      · rw [hkeys_addPsfGroup] at hm
        obtain ⟨s, hs, hkey⟩ := List.mem_map.mp hm
        have hseq : s = "SCA" :=
          (fkKey_inj n₀ n s "SCA" (goodSuffix_addPsf s hs) (by decide) hkey).2
        subst hseq
        exact absurd hs (by decide)
      · exact ih (n₀ + 1) n hm

theorem hget_plantGroup_X (sky : ℚ → ℚ → String × String) (epsf : List (List ℚ))
    (n : Nat) (x y sca : ℚ) :
    hget (plantGroup sky epsf n x y sca) (fkKey n "X") = some (HVal.num x) := by
  unfold hget plantGroup
  rw [List.find?_cons_of_pos _ (by simp)]
  rfl

theorem hget_plantGroup_Y (sky : ℚ → ℚ → String × String) (epsf : List (List ℚ))
    (n : Nat) (x y sca : ℚ) :
    hget (plantGroup sky epsf n x y sca) (fkKey n "Y") = some (HVal.num y) := by
  have h1 : fkKey n "X" ≠ fkKey n "Y" :=
    fkKey_ne_of_sfx n n "X" "Y" (by decide) (by decide) (by decide)
  unfold hget plantGroup
  rw [List.find?_cons_of_neg _ (by simp [h1])]
  rw [List.find?_cons_of_pos _ (by simp)]
  rfl

theorem hget_plantGroup_SCA (sky : ℚ → ℚ → String × String) (epsf : List (List ℚ))
    (n : Nat) (x y sca : ℚ) :
    hget (plantGroup sky epsf n x y sca) (fkKey n "SCA") = some (HVal.num sca) := by
  have h1 : fkKey n "X" ≠ fkKey n "SCA" :=
    fkKey_ne_of_sfx n n "X" "SCA" (by decide) (by decide) (by decide)
  have h2 : fkKey n "Y" ≠ fkKey n "SCA" :=
    fkKey_ne_of_sfx n n "Y" "SCA" (by decide) (by decide) (by decide)
  have h3 : fkKey n "RA" ≠ fkKey n "SCA" :=
    fkKey_ne_of_sfx n n "RA" "SCA" (by decide) (by decide) (by decide)
  have h4 : fkKey n "DEC" ≠ fkKey n "SCA" :=
    fkKey_ne_of_sfx n n "DEC" "SCA" (by decide) (by decide) (by decide)
  unfold hget plantGroup
  rw [List.find?_cons_of_neg _ (by simp [h1])]
  rw [List.find?_cons_of_neg _ (by simp [h2])]
  rw [List.find?_cons_of_neg _ (by simp [h3])]
  rw [List.find?_cons_of_neg _ (by simp [h4])]
  rw [List.find?_cons_of_pos _ (by simp)]
  rfl

theorem hget_plantGroups (sky : ℚ → ℚ → String × String) (epsf : List (List ℚ))
    (SCA : Option (List ℚ)) :
    ∀ (locs : List (ℚ × ℚ)) (n₀ j : Nat), j < locs.length →
      ∀ sfx ∈ plantSuffixes,
        hget (plantGroupsFrom sky epsf SCA n₀ locs) (fkKey (n₀ + j) sfx) =
          hget (plantGroup sky epsf (n₀ + j) (locs.getD j (0, 0)).1
            (locs.getD j (0, 0)).2 (scaSel SCA (n₀ + j))) (fkKey (n₀ + j) sfx) := by
  intro locs
  induction locs with
  | nil => intro n₀ j hj; simp at hj
  | cons loc rest ih =>
      intro n₀ j hj sfx hsfx
      obtain ⟨xp, yp⟩ := loc
      rw [plantGroups_cons, hget_append]
      cases j with
      | zero =>
          have hmem : fkKey (n₀ + 0) sfx ∈
              hkeys (plantGroup sky epsf n₀ xp yp (scaSel SCA n₀)) := by
            rw [hkeys_plantGroup]
            exact List.mem_map.mpr ⟨sfx, hsfx, by rw [Nat.add_zero]⟩
          obtain ⟨v, hv⟩ := hget_isSome_of_mem _ _ hmem
          rw [hv, option_some_or]
          have hz : n₀ + 0 = n₀ := Nat.add_zero n₀
          rw [show (((xp, yp) :: rest).getD 0 (0, 0)) = (xp, yp) from rfl, hz]
          exact hv.symm
      | succ j =>
          have hnot : fkKey (n₀ + (j + 1)) sfx ∉
              hkeys (plantGroup sky epsf n₀ xp yp (scaSel SCA n₀)) := by
            rw [hkeys_plantGroup]
            intro hmem
            obtain ⟨s, hs, hkey⟩ := List.mem_map.mp hmem
            exact fkKey_ne_of_idx n₀ (n₀ + (j + 1)) s sfx (goodSuffix_plant s hs)
              (goodSuffix_plant sfx hsfx) (by omega) hkey
          rw [hget_of_not_mem _ _ hnot, option_none_or]
          rw [show (((xp, yp) :: rest).getD (j + 1) (0, 0)) = rest.getD j (0, 0) from rfl]
          rw [show n₀ + (j + 1) = (n₀ + 1) + j from by omega]
          exact ih (n₀ + 1) j (by simp only [List.length_cons] at hj; omega) sfx hsfx

theorem plantFakes_ok_header (sky : ℚ → ℚ → String × String) (fstr : ℚ → String)
    (planter : FakePlanterState) (epsf : List (List ℚ))
    (locations : List (ℚ × ℚ)) (SCA : Option (List ℚ)) (hdu : Hdu)
    (hclean : ∀ k ∈ hkeys planter.diffim.sci.header, pyIn "FK" k = false)
    (hok : (plantFakes sky fstr planter epsf locations SCA).2 = Except.ok hdu) :
    hdu.header =
      hset (hset (hset (planter.diffim.sci.header ++
        plantGroupsFrom sky epsf SCA 0 locations) "fakeSN" (HVal.bool true))
        "N_fake" (HVal.str (pyStr locations.length)))
        "F_epsf" (HVal.str (fstr (matSum epsf))) := by
  have hfresh : ∀ k ∈ hkeys planter.diffim.sci.header,
      ∀ m, 0 ≤ m → ∀ sfx ∈ plantSuffixes, k ≠ fkKey m sfx := by
    intro k hk m _ sfx _ hkey
    have h1 := hclean k hk
    rw [hkey, pyIn_FK_fkKey] at h1
    cases h1
  simp only [plantFakes] at hok
  split at hok
  · cases hok
  · split at hok
    · cases hok
    · rename_i pr hL im hloop
      injection hok with hinj
      subst hinj
      have hchar : hL = planter.diffim.sci.header ++
          plantGroupsFrom sky epsf SCA 0 locations :=
        plantFakesLoop_ok sky epsf SCA locations 0 planter.diffim.sci.header
          planter.diffim.sci.data.pix (hL, im) hfresh hloop
      rw [← hchar]

theorem addPsf_ok_header (psfEval : ℚ → ℚ → ℚ → ℚ → ℚ → ℚ)
    (sky : ℚ → ℚ → String × String) (fstr : ℚ → String) (flux0 : ℚ)
    (img : FitsImageState) (colnames : List String) (rows : List PFRow) (hdu : Hdu)
    (hclean : ∀ k ∈ hkeys img.sci.header, pyIn "FK" k = false)
    (hok : (addPsf psfEval sky fstr flux0 img
      (PosFluxInput.table colnames rows)).2 = Except.ok hdu) :
    hdu.header =
      hset (hset (hset (img.sci.header ++ addPsfGroupsFrom sky 0 rows)
        "fakeSN" (HVal.bool true)) "N_fake" (HVal.str (pyStr rows.length)))
        "F_epsf" (HVal.str (fstr
          (addPsfLoop psfEval sky 0 rows img.sci.header img.sci.data.pix flux0).2.2)) := by
  have hfresh : ∀ k ∈ hkeys img.sci.header,
      ∀ m, 0 ≤ m → ∀ sfx ∈ addPsfSuffixes, k ≠ fkKey m sfx := by
    intro k hk m _ sfx _ hkey
    have h1 := hclean k hk
    rw [hkey, pyIn_FK_fkKey] at h1
    cases h1
  simp only [addPsf] at hok
  split at hok
  · cases hok
  · split at hok
    · cases hok
    · split at hok
      · cases hok
      · rename_i rows' hcheck
        have hrows : rows' = rows := by
          have hred : (if "x_fit" ∉ colnames then
                (Except.error (PyErr.valueError "Input table does not have x_fit") :
                  Except PyErr (List PFRow))
              else if "y_fit" ∉ colnames then
                Except.error (PyErr.valueError "Input table does not have y_fit")
              else if "flux_fit" ∉ colnames then
                Except.error (PyErr.valueError "Input table does not have flux_fit")
              else Except.ok rows) = Except.ok rows' := hcheck
          split at hred
          · cases hred
          · split at hred
            · cases hred
            · split at hred
              · cases hred
              · exact (Except.ok.inj hred).symm
        rw [hrows] at hok
        injection hok with hinj
        subst hinj
        have hchar : (addPsfLoop psfEval sky 0 rows img.sci.header
            img.sci.data.pix flux0).1 =
            img.sci.header ++ addPsfGroupsFrom sky 0 rows :=
          addPsfLoop_header psfEval sky rows 0 img.sci.header
            img.sci.data.pix flux0 hfresh
        show hset (hset (hset (addPsfLoop psfEval sky 0 rows img.sci.header
            img.sci.data.pix flux0).1 "fakeSN" (HVal.bool true)) "N_fake" _)
            "F_epsf" _ = _
        rw [hchar]

theorem mem_hkeys_hset_ne (h : Header) (k k' : String) (v : HVal) (hne : k' ≠ k) :
    (k' ∈ hkeys (hset h k v)) ↔ k' ∈ hkeys h := by
  rw [hkeys_hset]
  split
  · exact Iff.rfl
  · rw [List.mem_append, List.mem_singleton]
    constructor
    · rintro (hm | hm)
      · exact hm
      · exact absurd hm hne
    · exact Or.inl

theorem hget_final_Nfake (HL : Header) (b v1 v2 : HVal) :
    hget (hset (hset (hset HL "fakeSN" b) "N_fake" v1) "F_epsf" v2) "N_fake" =
      some v1 := by
  rw [hget_hset_ne _ _ _ _ (by decide : ("F_epsf" : String) ≠ "N_fake")]
  exact hget_hset_self _ _ _

theorem hget_final_fakeSN (HL : Header) (b v1 v2 : HVal) :
    hget (hset (hset (hset HL "fakeSN" b) "N_fake" v1) "F_epsf" v2) "fakeSN" =
      some b := by
  rw [hget_hset_ne _ _ _ _ (by decide : ("F_epsf" : String) ≠ "fakeSN")]
  rw [hget_hset_ne _ _ _ _ (by decide : ("N_fake" : String) ≠ "fakeSN")]
  exact hget_hset_self _ _ _

theorem hget_final_fk (HL : Header) (b v1 v2 : HVal) (n : Nat) (sfx : String) :
    hget (hset (hset (hset HL "fakeSN" b) "N_fake" v1) "F_epsf" v2) (fkKey n sfx) =
      hget HL (fkKey n sfx) := by
  rw [hget_hset_ne _ _ _ _ (Ne.symm (fkKey_ne_Fepsf n sfx))]
  rw [hget_hset_ne _ _ _ _ (Ne.symm (fkKey_ne_Nfake n sfx))]
  rw [hget_hset_ne _ _ _ _ (Ne.symm (fkKey_ne_fakeSN n sfx))]

theorem mem_final_fk (HL : Header) (b v1 v2 : HVal) (n : Nat) (sfx : String) :
    (fkKey n sfx ∈
        hkeys (hset (hset (hset HL "fakeSN" b) "N_fake" v1) "F_epsf" v2)) ↔
      fkKey n sfx ∈ hkeys HL := by
  rw [mem_hkeys_hset_ne _ _ _ _ (fkKey_ne_Fepsf n sfx)]
  rw [mem_hkeys_hset_ne _ _ _ _ (fkKey_ne_Nfake n sfx)]
  rw [mem_hkeys_hset_ne _ _ _ _ (fkKey_ne_fakeSN n sfx)]

theorem fkKey_notmem_clean (h₀ : Header)
    (hclean : ∀ k ∈ hkeys h₀, pyIn "FK" k = false) (n : Nat) (sfx : String) :
    fkKey n sfx ∉ hkeys h₀ := by
  intro hmem
  have h1 := hclean _ hmem
  rw [pyIn_FK_fkKey] at h1
  cases h1

theorem filter_hkeys_hset (h : Header) (k : String) (v : HVal)
    (hpk : (pyIn "FK" k && pyIn "X" k) = false) :
    (hkeys (hset h k v)).filter (fun k => pyIn "FK" k && pyIn "X" k) =
      (hkeys h).filter (fun k => pyIn "FK" k && pyIn "X" k) := by
  rw [hkeys_hset]
  split
  · rfl
  · rw [List.filter_append]
    rw [show ([k].filter (fun k => pyIn "FK" k && pyIn "X" k)) = [] from by
      rw [List.filter_cons_of_neg (by simp [hpk])]; rfl]
    rw [List.append_nil]

theorem filter_clean_nil (h₀ : Header)
    (hclean : ∀ k ∈ hkeys h₀, pyIn "FK" k = false) :
    (hkeys h₀).filter (fun k => pyIn "FK" k && pyIn "X" k) = [] := by
  rw [List.filter_eq_nil_iff]
  intro k hk
  rw [hclean k hk]
  simp

theorem filter_plantGroups_keys (sky : ℚ → ℚ → String × String)
    (epsf : List (List ℚ)) (SCA : Option (List ℚ)) :
    ∀ (locs : List (ℚ × ℚ)) (n₀ : Nat),
      (hkeys (plantGroupsFrom sky epsf SCA n₀ locs)).filter
          (fun k => pyIn "FK" k && pyIn "X" k) =
        (List.range locs.length).map (fun j => fkKey (n₀ + j) "X") := by
  intro locs
  induction locs with
  | nil => intro n₀; rfl
  | cons loc rest ih =>
      intro n₀
      obtain ⟨xp, yp⟩ := loc
      rw [plantGroups_cons, hkeys_append, List.filter_append, hkeys_plantGroup]
      have hY := pyIn_X_fkKey_ne n₀ "Y" (by decide)
      have hRA := pyIn_X_fkKey_ne n₀ "RA" (by decide)
      have hDEC := pyIn_X_fkKey_ne n₀ "DEC" (by decide)
      have hSCA := pyIn_X_fkKey_ne n₀ "SCA" (by decide)
      have hF := pyIn_X_fkKey_ne n₀ "F" (by decide)
      have hMOD := pyIn_X_fkKey_ne n₀ "MOD" (by decide)
      have hgrp : (plantSuffixes.map (fun s => fkKey n₀ s)).filter
          (fun k => pyIn "FK" k && pyIn "X" k) = [fkKey n₀ "X"] := by
        show ([fkKey n₀ "X", fkKey n₀ "Y", fkKey n₀ "RA", fkKey n₀ "DEC",
          fkKey n₀ "SCA", fkKey n₀ "F", fkKey n₀ "MOD"]).filter
            (fun k => pyIn "FK" k && pyIn "X" k) = [fkKey n₀ "X"]
        rw [List.filter_cons_of_pos
          (by rw [pyIn_FK_fkKey, pyIn_X_fkKey_X]; rfl)]
        rw [List.filter_cons_of_neg (by simp [hY])]
        rw [List.filter_cons_of_neg (by simp [hRA])]
        rw [List.filter_cons_of_neg (by simp [hDEC])]
        rw [List.filter_cons_of_neg (by simp [hSCA])]
        rw [List.filter_cons_of_neg (by simp [hF])]
        rw [List.filter_cons_of_neg (by simp [hMOD])]
        rfl
      rw [hgrp, ih (n₀ + 1)]
      rw [List.singleton_append, List.length_cons, List.range_succ_eq_map,
        List.map_cons, List.map_map, Nat.add_zero]
      congr 1
      apply List.map_congr_left
      intro j _
      show fkKey ((n₀ + 1) + j) "X" = fkKey (n₀ + (j + 1)) "X"
      rw [show (n₀ + 1) + j = n₀ + (j + 1) from by omega]

/-- Claim C7: injecting N fakes (into an image with no preexisting FK cards)
with `plant_fakes` or `add_psf` sets the header card `N_fake` to the decimal
string of N (per the source, `str(len(...))`), sets `fakeSN` to True, and
produces exactly N distinct FK groups: the key `FK<code(n)>X` is present
precisely for the indices `0..N-1`, and for each such index the whole
provenance group is present (`X,Y,RA,DEC,SCA,F,MOD` for `plant_fakes`;
`X,Y,RA,DEC,F,MOD` for `add_psf`). -/
theorem claim_C7_accounting :
    (∀ (sky : ℚ → ℚ → String × String) (fstr : ℚ → String)
       (planter : FakePlanterState) (epsf : List (List ℚ))
       (locations : List (ℚ × ℚ)) (SCA : Option (List ℚ)) (hdu : Hdu),
      (∀ k ∈ hkeys planter.diffim.sci.header, pyIn "FK" k = false) →
      (plantFakes sky fstr planter epsf locations SCA).2 = Except.ok hdu →
      hget hdu.header "N_fake" = some (HVal.str (pyStr locations.length)) ∧
      hget hdu.header "fakeSN" = some (HVal.bool true) ∧
      (∀ n, (fkKey n "X" ∈ hkeys hdu.header) ↔ n < locations.length) ∧
      (∀ n, n < locations.length → ∀ sfx ∈ plantSuffixes,
        fkKey n sfx ∈ hkeys hdu.header)) ∧
    (∀ (psfEval : ℚ → ℚ → ℚ → ℚ → ℚ → ℚ) (sky : ℚ → ℚ → String × String)
       (fstr : ℚ → String) (flux0 : ℚ) (img : FitsImageState)
       (colnames : List String) (rows : List PFRow) (hdu : Hdu),
      (∀ k ∈ hkeys img.sci.header, pyIn "FK" k = false) →
      (addPsf psfEval sky fstr flux0 img
        (PosFluxInput.table colnames rows)).2 = Except.ok hdu →
      hget hdu.header "N_fake" = some (HVal.str (pyStr rows.length)) ∧
      hget hdu.header "fakeSN" = some (HVal.bool true) ∧
      (∀ n, (fkKey n "X" ∈ hkeys hdu.header) ↔ n < rows.length) ∧
      (∀ n, n < rows.length → ∀ sfx ∈ addPsfSuffixes,
        fkKey n sfx ∈ hkeys hdu.header)) := by
  constructor
  · intro sky fstr planter epsf locations SCA hdu hclean hok
    have hhdr := plantFakes_ok_header sky fstr planter epsf locations SCA hdu
      hclean hok
    rw [hhdr]
    refine ⟨hget_final_Nfake _ _ _ _, hget_final_fakeSN _ _ _ _, ?_, ?_⟩
    · intro n
      rw [mem_final_fk, hkeys_append, List.mem_append]
      constructor
      · rintro (hm | hm)
        · exact absurd hm (fkKey_notmem_clean _ hclean n "X")
        · have := (fkKeyX_mem_plantGroups sky epsf SCA locations 0 n).mp hm
          omega
      · intro hn
        right
        rw [fkKeyX_mem_plantGroups sky epsf SCA locations 0 n]
        omega
    · intro n hn sfx hsfx
      rw [mem_final_fk, hkeys_append, List.mem_append]
      right
      have hmem := fkKey_mem_plantGroups sky epsf SCA locations 0 n hn sfx hsfx
      rwa [Nat.zero_add] at hmem
  · intro psfEval sky fstr flux0 img colnames rows hdu hclean hok
    have hhdr := addPsf_ok_header psfEval sky fstr flux0 img colnames rows hdu
      hclean hok
    rw [hhdr]
    refine ⟨hget_final_Nfake _ _ _ _, hget_final_fakeSN _ _ _ _, ?_, ?_⟩
    · intro n
      rw [mem_final_fk, hkeys_append, List.mem_append]
      constructor
      · rintro (hm | hm)
        · exact absurd hm (fkKey_notmem_clean _ hclean n "X")
        · have := (fkKeyX_mem_addGroups sky rows 0 n).mp hm
          omega
      · intro hn
        right
        rw [fkKeyX_mem_addGroups sky rows 0 n]
        omega
    · intro n hn sfx hsfx
      rw [mem_final_fk, hkeys_append, List.mem_append]
      right
      have hmem := fkKey_mem_addGroups sky rows 0 n hn sfx hsfx
      rwa [Nat.zero_add] at hmem

/-- Witness for C7 at a concrete input: one location planted by
`plant_fakes` into a clean 5×5 image (and the matching conclusion
instances). -/
theorem claim_C7_witness :
    ((∀ k ∈ hkeys cPlanter0.diffim.sci.header, pyIn "FK" k = false) ∧
     (plantFakes cSky cFstr cPlanter0 cEpsf0 cLocs0 cSCA0).2 =
       Except.ok cPlantHdu) ∧
    (hget cPlantHdu.header "N_fake" = some (HVal.str (pyStr cLocs0.length)) ∧
     hget cPlantHdu.header "fakeSN" = some (HVal.bool true) ∧
     (∀ n, (fkKey n "X" ∈ hkeys cPlantHdu.header) ↔ n < cLocs0.length) ∧
     (∀ n, n < cLocs0.length → ∀ sfx ∈ plantSuffixes,
       fkKey n sfx ∈ hkeys cPlantHdu.header)) :=
  ⟨⟨by decide, by with_unfolding_all rfl⟩,
   claim_C7_accounting.1 cSky cFstr cPlanter0 cEpsf0 cLocs0 cSCA0 cPlantHdu
     (by decide) (by with_unfolding_all rfl)⟩

/-- Claim C4 (counterexample): a concrete successful `add_psf` call writes
`FK000X` (and the other five cards) but never writes `FK000SCA` — the `SCA`
card is absent from the returned header, contradicting the claim that every
`add_psf` fake group contains `FK<i>SCA`. -/
theorem claim_C4_counterexample :
    cAddRes.2 = Except.ok cAddHdu ∧
    hget cAddHdu.header (fkKey 0 "X") = some (HVal.num 1) ∧
    hget cAddHdu.header (fkKey 0 "SCA") = none :=
  ⟨by with_unfolding_all rfl, by with_unfolding_all rfl,
   by with_unfolding_all rfl⟩

/-- Claim C4 (amended): for every fake injected by `add_psf` (index `i`)
into an image with no preexisting FK cards, the header of the returned copy
contains the keys `FK<i>X, FK<i>Y, FK<i>RA, FK<i>DEC, FK<i>F, FK<i>MOD` —
but not `FK<i>SCA`: the scale card is written only by `plant_fakes`. -/
theorem claim_C4_amended (psfEval : ℚ → ℚ → ℚ → ℚ → ℚ → ℚ)
    (sky : ℚ → ℚ → String × String) (fstr : ℚ → String) (flux0 : ℚ)
    (img : FitsImageState) (colnames : List String) (rows : List PFRow)
    (hdu : Hdu)
    (hclean : ∀ k ∈ hkeys img.sci.header, pyIn "FK" k = false)
    (hok : (addPsf psfEval sky fstr flux0 img
      (PosFluxInput.table colnames rows)).2 = Except.ok hdu) :
    (∀ n, n < rows.length → ∀ sfx ∈ addPsfSuffixes,
      fkKey n sfx ∈ hkeys hdu.header) ∧
    (∀ n, fkKey n "SCA" ∉ hkeys hdu.header) := by
  have hhdr := addPsf_ok_header psfEval sky fstr flux0 img colnames rows hdu
    hclean hok
  rw [hhdr]
  constructor
  · intro n hn sfx hsfx
    rw [mem_final_fk, hkeys_append, List.mem_append]
    right
    have hmem := fkKey_mem_addGroups sky rows 0 n hn sfx hsfx
    rwa [Nat.zero_add] at hmem
  · intro n
    rw [mem_final_fk, hkeys_append, List.mem_append]
    rintro (hm | hm)
    · exact fkKey_notmem_clean _ hclean n "SCA" hm
    · exact fkKeySCA_notmem_addGroups sky rows 0 n hm

/-- Witness for C4 (amended) at a concrete input: a single row added by
`add_psf` into a clean 5×5 image. -/
theorem claim_C4_witness :
    ((∀ k ∈ hkeys cImg0.sci.header, pyIn "FK" k = false) ∧
     (addPsf cPsfEval cSky cFstr 1 cImg0
       (PosFluxInput.table cCols0 cRows0)).2 = Except.ok cAddHdu) ∧
    ((∀ n, n < cRows0.length → ∀ sfx ∈ addPsfSuffixes,
       fkKey n sfx ∈ hkeys cAddHdu.header) ∧
     (∀ n, fkKey n "SCA" ∉ hkeys cAddHdu.header)) :=
  ⟨⟨by decide, by with_unfolding_all rfl⟩,
   claim_C4_amended cPsfEval cSky cFstr 1 cImg0 cCols0 cRows0 cAddHdu
     (by decide) (by with_unfolding_all rfl)⟩

/-- Claim C8: `add_psf` fails fast with a descriptive `ValueError` when the
pixel data is not 2-dimensional or the supplied position table lacks one of
the columns `x_fit`, `y_fit`, `flux_fit` — and in those cases no state is
mutated: the `FitsImage` object (science HDU, `plants`, `has_fakes`) is
returned unchanged and no header entries are written anywhere (no HDU is
produced at all). -/
theorem claim_C8_validation (psfEval : ℚ → ℚ → ℚ → ℚ → ℚ → ℚ)
    (sky : ℚ → ℚ → String × String) (fstr : ℚ → String) (flux0 : ℚ)
    (img : FitsImageState) (pf : PosFluxInput)
    (hr : hget img.sci.header "RADESYS" ≠ none)
    (hbad : img.sci.data.ndim ≠ 2 ∨
      ∃ cols rows, pf = PosFluxInput.table cols rows ∧
        ("x_fit" ∉ cols ∨ "y_fit" ∉ cols ∨ "flux_fit" ∉ cols)) :
    (addPsf psfEval sky fstr flux0 img pf).1 = img ∧
    ∃ m, (addPsf psfEval sky fstr flux0 img pf).2 =
      Except.error (PyErr.valueError m) := by
  obtain ⟨v, hv⟩ := Option.ne_none_iff_exists'.mp hr
  by_cases hnd : img.sci.data.ndim ≠ 2
  · constructor
    · simp only [addPsf, hv]
      rw [if_pos hnd]
    · refine ⟨pyStr img.sci.data.ndim ++
        "-d array not supported. Only 2-d arrays can be passed to subtract_psf.", ?_⟩
      simp only [addPsf, hv]
      rw [if_pos hnd]
  · rcases hbad with hcontra | ⟨cols, rows, rfl, hcols⟩
    · exact absurd hcontra hnd
    · have hcheck : ∃ m, checkPosflux (PosFluxInput.table cols rows) =
          Except.error (PyErr.valueError m) := by
        by_cases hx : "x_fit" ∉ cols
        · refine ⟨"Input table does not have x_fit", ?_⟩
          simp only [checkPosflux]
          rw [if_pos hx]
        · by_cases hy : "y_fit" ∉ cols
          · refine ⟨"Input table does not have y_fit", ?_⟩
            simp only [checkPosflux]
            rw [if_neg hx, if_pos hy]
          · by_cases hf : "flux_fit" ∉ cols
            · refine ⟨"Input table does not have flux_fit", ?_⟩
              simp only [checkPosflux]
              rw [if_neg hx, if_neg hy, if_pos hf]
            · rcases hcols with hc | hc | hc
              · exact absurd hc hx
              · exact absurd hc hy
              · exact absurd hc hf
      obtain ⟨m, hm⟩ := hcheck
      constructor
      · simp only [addPsf, hv]
        rw [if_neg hnd, hm]
      · refine ⟨m, ?_⟩
        simp only [addPsf, hv]
        rw [if_neg hnd, hm]

/-- Witness for C8 at a concrete input: a 2-D image with `RADESYS` present
and a position table missing the `x_fit` column. -/
theorem claim_C8_witness :
    (hget cImg0.sci.header "RADESYS" ≠ none ∧
     (cImg0.sci.data.ndim ≠ 2 ∨
       ∃ cols rows, cBadPF = PosFluxInput.table cols rows ∧
         ("x_fit" ∉ cols ∨ "y_fit" ∉ cols ∨ "flux_fit" ∉ cols))) ∧
    ((addPsf cPsfEval cSky cFstr 1 cImg0 cBadPF).1 = cImg0 ∧
     ∃ m, (addPsf cPsfEval cSky cFstr 1 cImg0 cBadPF).2 =
       Except.error (PyErr.valueError m)) :=
  ⟨⟨by decide, Or.inr ⟨["y_fit", "flux_fit"], [], rfl, Or.inl (by decide)⟩⟩,
   claim_C8_validation cPsfEval cSky cFstr 1 cImg0 cBadPF (by decide)
     (Or.inr ⟨["y_fit", "flux_fit"], [], rfl, Or.inl (by decide)⟩)⟩

theorem mapM_map_ok {α β γ : Type} (f : β → Except PyErr γ) (g : α → β) :
    ∀ (l : List α) (v : α → γ), (∀ a ∈ l, f (g a) = Except.ok (v a)) →
      (l.map g).mapM f = Except.ok (l.map v) := by
  intro l
  induction l with
  | nil => intro v _; rfl
  | cons a t ih =>
      intro v hf
      rw [List.map_cons, List.map_cons, List.mapM_cons]
      rw [hf a (List.mem_cons_self _ _)]
      rw [ih v (fun x hx => hf x (List.mem_cons_of_mem _ hx))]
      rfl

theorem range_map_getD {α : Type} (d : α) :
    ∀ l : List α, (List.range l.length).map (fun j => l.getD j d) = l := by
  intro l
  induction l with
  | nil => rfl
  | cons a t ih =>
      rw [List.length_cons, List.range_succ_eq_map, List.map_cons, List.map_map]
      have htail : List.map ((fun j => (a :: t).getD j d) ∘ Nat.succ)
          (List.range t.length) = t := by
        rw [show ((fun j => (a :: t).getD j d) ∘ Nat.succ) =
          (fun j => t.getD j d) from funext (fun j => rfl)]
        exact ih
      rw [htail]
      rfl

theorem strSlice_fkKey (n : Nat) (sfx : String) (hn : n ≤ 999) :
    strSlice (fkKey n sfx) 2 5 = fkCode n := by
  apply String.ext_iff.mpr
  show (((fkKey n sfx).data.drop 2).take 3) = (fkCode n).data
  rw [fkKey_data]
  rw [show (('F' :: 'K' :: ((fkCode n).data ++ sfx.data)).drop 2) =
    (fkCode n).data ++ sfx.data from rfl]
  exact List.take_left' (fkCode_len n hn)

/-- Claim C2: for any image with no preexisting FK cards and at most 1000
fakes, every fake injected by `plant_fakes` at pixel `(x, y)` with scale
factor `s` round-trips through the header: `get_fake_locations` recovers
exactly the planted `(x, y)` list (positions exact, IDs the 3-digit codes
in order), and the `FK<idx>SCA` card holds exactly the scale factor used
(`SCA[n]` when a nonempty scale list was supplied, else `1`). -/
theorem claim_C2_roundtrip (sky : ℚ → ℚ → String × String) (fstr : ℚ → String)
    (planter : FakePlanterState) (epsf : List (List ℚ))
    (locations : List (ℚ × ℚ)) (SCA : Option (List ℚ)) (hdu : Hdu)
    (hclean : ∀ k ∈ hkeys planter.diffim.sci.header, pyIn "FK" k = false)
    (hcap : locations.length ≤ 1000)
    (hok : (plantFakes sky fstr planter epsf locations SCA).2 = Except.ok hdu) :
    getFakeLocations hdu.header =
      Except.ok ((List.range locations.length).map (fun n => fkCode n),
        locations) ∧
    ∀ n, n < locations.length →
      hget hdu.header (fkKey n "SCA") = some (HVal.num (scaSel SCA n)) := by
  have hhdr := plantFakes_ok_header sky fstr planter epsf locations SCA hdu
    hclean hok
  have hfk : ∀ j sfx, sfx ∈ plantSuffixes → j < locations.length →
      hget hdu.header (fkKey j sfx) =
        hget (plantGroup sky epsf j (locations.getD j (0, 0)).1
          (locations.getD j (0, 0)).2 (scaSel SCA j)) (fkKey j sfx) := by
    intro j sfx hsfx hj
    rw [hhdr, hget_final_fk, hget_append,
      hget_of_not_mem _ _ (fkKey_notmem_clean _ hclean j sfx), option_none_or]
    have hgg := hget_plantGroups sky epsf SCA locations 0 j hj sfx hsfx
    rwa [Nat.zero_add] at hgg
  have hX : ∀ j, j < locations.length → hget hdu.header (fkKey j "X") =
      some (HVal.num (locations.getD j (0, 0)).1) := by
    intro j hj
    rw [hfk j "X" (by decide) hj, hget_plantGroup_X]
  have hY : ∀ j, j < locations.length → hget hdu.header (fkKey j "Y") =
      some (HVal.num (locations.getD j (0, 0)).2) := by
    intro j hj
    rw [hfk j "Y" (by decide) hj, hget_plantGroup_Y]
  have hS : ∀ j, j < locations.length → hget hdu.header (fkKey j "SCA") =
      some (HVal.num (scaSel SCA j)) := by
    intro j hj
    rw [hfk j "SCA" (by decide) hj, hget_plantGroup_SCA]
  refine ⟨?_, hS⟩
  have hkeysF : (hkeys hdu.header).filter (fun k => pyIn "FK" k && pyIn "X" k) =
      (List.range locations.length).map (fun j => fkKey j "X") := by
    rw [hhdr]
    rw [filter_hkeys_hset _ _ _ (by decide)]
    rw [filter_hkeys_hset _ _ _ (by decide)]
    rw [filter_hkeys_hset _ _ _ (by decide)]
    rw [hkeys_append, List.filter_append, filter_clean_nil _ hclean,
      List.nil_append, filter_plantGroups_keys]
    apply List.map_congr_left
    intro j _
    rw [Nat.zero_add]
  simp only [getFakeLocations]
  rw [hkeysF]
  have hids : ((List.range locations.length).map (fun j => fkKey j "X")).map
      (fun k => strSlice k 2 5) =
      (List.range locations.length).map (fun n => fkCode n) := by
    rw [List.map_map]
    apply List.map_congr_left
    intro j hj
    have hj' : j < locations.length := List.mem_range.mp hj
    show strSlice (fkKey j "X") 2 5 = fkCode j
    exact strSlice_fkKey j "X" (by omega)
  rw [hids]
  have hxs : ((List.range locations.length).map (fun j => fkKey j "X")).map
      (fun k => hvalNumD (hget hdu.header k)) =
      (List.range locations.length).map (fun j => (locations.getD j (0, 0)).1) := by
    rw [List.map_map]
    apply List.map_congr_left
    intro j hj
    have hj' : j < locations.length := List.mem_range.mp hj
    show hvalNumD (hget hdu.header (fkKey j "X")) = (locations.getD j (0, 0)).1
    rw [hX j hj']
    rfl
  rw [hxs]
  have hys : ((List.range locations.length).map (fun n => fkCode n)).mapM
      (fun fid => hgetNumE hdu.header ("FK" ++ fid ++ "Y")) =
      Except.ok ((List.range locations.length).map
        (fun j => (locations.getD j (0, 0)).2)) := by
    apply mapM_map_ok
    intro j hj
    have hj' : j < locations.length := List.mem_range.mp hj
    show hgetNumE hdu.header ("FK" ++ fkCode j ++ "Y") =
      Except.ok (locations.getD j (0, 0)).2
    rw [show ("FK" ++ fkCode j ++ "Y") = fkKey j "Y" from rfl]
    unfold hgetNumE
    rw [hY j hj']
    rfl
  rw [hys]
  have hzip : ((List.range locations.length).map
        (fun j => (locations.getD j (0, 0)).1)).zip
      ((List.range locations.length).map
        (fun j => (locations.getD j (0, 0)).2)) = locations := by
    rw [List.zip_map']
    rw [show (fun j => ((locations.getD j (0, 0)).1, (locations.getD j (0, 0)).2)) =
      (fun j => locations.getD j (0, 0)) from funext (fun j => rfl)]
    exact range_map_getD (0, 0) locations
  exact congrArg (fun z =>
    (Except.ok ((List.range locations.length).map (fun n => fkCode n), z) :
      Except PyErr (List String × List (ℚ × ℚ)))) hzip

/-- Witness for C2 at a concrete input: one fake planted at `(2, 2)` with
scale `3` into a clean 5×5 image; the header reads back ID `"000"`,
position `(2, 2)` and scale `3`. -/
theorem claim_C2_witness :
    ((∀ k ∈ hkeys cPlanter0.diffim.sci.header, pyIn "FK" k = false) ∧
     cLocs0.length ≤ 1000 ∧
     (plantFakes cSky cFstr cPlanter0 cEpsf0 cLocs0 cSCA0).2 =
       Except.ok cPlantHdu) ∧
    (getFakeLocations cPlantHdu.header =
      Except.ok ((List.range cLocs0.length).map (fun n => fkCode n), cLocs0) ∧
     ∀ n, n < cLocs0.length →
       hget cPlantHdu.header (fkKey n "SCA") = some (HVal.num (scaSel cSCA0 n))) :=
  ⟨⟨by decide, by decide, by with_unfolding_all rfl⟩,
   claim_C2_roundtrip cSky cFstr cPlanter0 cEpsf0 cLocs0 cSCA0 cPlantHdu
     (by decide) (by decide) (by with_unfolding_all rfl)⟩
